import Mathlib

/-!
Shallow embedding of `src/main.py` (fake social-network data generator).

Randomness is modelled by an oracle state `RState`: a stream `g : Nat → Nat` of
raw draws together with a position.  `random.randint(a, b)` consumes one raw
draw and reduces it into the inclusive range `[a, b]`; it fails (Python
`ValueError`) when `b < a`.  The Faker name source is a second, independent
stream (`FState`), matching the two independently seeded generators of the
source.  Fallible Python operations (empty `randint` range, list indexing)
return `Option`.
-/

structure RState where
  g : Nat → Nat
  pos : Nat

def RState.next (s : RState) : Nat × RState :=
  (s.g s.pos, ⟨s.g, s.pos + 1⟩)

def RState.advance (s : RState) : RState :=
  ⟨s.g, s.pos + 1⟩

/-- `random.randint(a, b)`: a uniform draw from the inclusive range `[a, b]`;
raises `ValueError` (here: `none`) when `b < a`.  The raw draw is reduced
modulo the size of the range. -/
def randint (a b : Int) (s : RState) : Option (Int × RState) :=
  if b < a then none
  else
    let (v, s1) := s.next
    some (a + ((v % (b - a + 1).toNat : Nat) : Int), s1)

/-- `percent_roll_check` (src/main.py lines 10-18): roll `random.randint(0, 100)`
and return `False` when the value is `<= threshold`, `True` otherwise. -/
def percent_roll_check (threshold : Int) (s : RState) : Option (Bool × RState) :=
  match randint 0 100 s with
  | none => none
  | some (v, s1) => some (decide (threshold < v), s1)

/-- The sampling loop of `get_random_items` (src/main.py lines 34-36): repeat
`number_of_items` times: draw `random_index = randint(0, len(from_list)-1)` and
append `from_list[random_index]`. -/
def sample_items (from_list : List α) : Nat → RState → Option (List α × RState)
  | 0, s => some ([], s)
  | n + 1, s =>
    match randint 0 ((from_list.length : Int) - 1) s with
    | none => none
    | some (idx, s1) =>
      match from_list.get? idx.toNat with
      | none => none
      | some x =>
        match sample_items from_list n s1 with
        | none => none
        | some (rest, s2) => some (x :: rest, s2)

/-- Lines 31-40 of `get_random_items`: draw
`number_of_items = randint(1, max_items)`, run the sampling loop, and return
`set(result)` — the set is represented by deduplicating the sampled list,
membership being what the callers use. -/
def gri_sample_phase [DecidableEq α] (from_list : List α) (max_items : Int)
    (s : RState) : Option (List α × RState) :=
  match randint 1 max_items s with
  | none => none
  | some (n, s1) =>
    match sample_items from_list n.toNat s1 with
    | none => none
    | some (result, s2) => some (result.dedup, s2)

/-- `get_random_items` (src/main.py lines 21-40).  `if chance_is_empty:` is
Python truthiness, i.e. `chance_is_empty ≠ 0`; when the subsequent
`percent_roll_check` returns `False` the function short-circuits to the empty
set. -/
def get_random_items [DecidableEq α] (from_list : List α) (max_items : Int)
    (chance_is_empty : Int) (s : RState) : Option (List α × RState) :=
  if chance_is_empty ≠ 0 then
    match percent_roll_check chance_is_empty s with
    | none => none
    | some (ok, s1) =>
      if !ok then some ([], s1) else gri_sample_phase from_list max_items s1
  else gri_sample_phase from_list max_items s

theorem randint_isSome {a b : Int} (s : RState) (h : a ≤ b) :
    randint a b s = some (a + ((s.g s.pos % (b - a + 1).toNat : Nat) : Int), s.advance) := by
  simp [randint, RState.next, RState.advance, not_lt.mpr h]

theorem randint_bounds {a b v : Int} {s s1 : RState}
    (h : randint a b s = some (v, s1)) : a ≤ v ∧ v ≤ b := by
  unfold randint at h
  split at h
  · exact absurd h (by simp)
  · next hba =>
    simp only [RState.next, Option.some.injEq, Prod.mk.injEq] at h
    obtain ⟨hv, -⟩ := h
    have hba2 : a ≤ b := not_lt.mp hba
    have hm : ((b - a + 1).toNat : Int) = b - a + 1 := Int.toNat_of_nonneg (by omega)
    have hpos : 0 < (b - a + 1).toNat := by omega
    have hlt : s.g s.pos % (b - a + 1).toNat < (b - a + 1).toNat := Nat.mod_lt _ hpos
    omega

theorem randint_state {a b v : Int} {s s1 : RState}
    (h : randint a b s = some (v, s1)) : s1 = s.advance := by
  unfold randint at h
  split at h
  · exact absurd h (by simp)
  · simp [RState.next, RState.advance] at h ⊢
    obtain ⟨-, h2⟩ := h
    exact h2.symm

theorem percent_roll_check_eq (threshold : Int) (s : RState) :
    percent_roll_check threshold s
      = some (decide (threshold < ((s.g s.pos % 101 : Nat) : Int)), s.advance) := by
  have h := randint_isSome (a := 0) (b := 100) s (by norm_num)
  simp only [percent_roll_check, h]
  norm_num

/-! ## Person generation (src/main.py lines 69-124) -/

/-- The Faker name source: an independent stream of strings, seeded separately
(`Faker.seed`).  `fake.unique.name()` consumes one element. -/
structure FState where
  f : Nat → String
  pos : Nat

def FState.next (fs : FState) : String × FState :=
  (fs.f fs.pos, ⟨fs.f, fs.pos + 1⟩)

structure Person where
  id : Int
  name : String
  tags : List (String × List (String × Int))
  friends : List Int
deriving DecidableEq

instance : Inhabited Person :=
  ⟨{ id := 0, name := "", tags := [], friends := [] }⟩

/-- The static hashtag vocabulary (src/main.py lines 71-81). -/
def tags_vocabulary : List String :=
  ["#love", "#fashion", "#photooftheday", "#beautiful", "#photography",
   "#picoftheday", "#happy", "#follow", "#nature", "#tbt", "#instagram",
   "#travel", "#like4like", "#style", "#repost", "#summer", "#instadaily",
   "#selfie", "#beauty", "#girl", "#friends", "#instalike", "#me",
   "#smile", "#family", "#photo", "#life", "#likeforlike", "#music",
   "#ootd", "#makeup", "#follow4follow", "#amazing", "#igers", "#nofilter",
   "#model", "#sunset", "#beach", "#design", "#motivation", "#instamood",
   "#foodporn", "#lifestyle", "#followforfollow", "#sky", "#l4l", "#f4f",
   "#handmade", "#likeforlikes", "#cat"]

def interaction_kinds : List String := ["liked", "posted"]

/-- Inner loop over `["liked", "posted"]` (src/main.py lines 98-103): each kind
is skipped when `percent_roll_check(13)` returns `False`; otherwise it is bound
to `random.randint(0, 8)`. -/
def gen_interactions : List String → RState → Option (List (String × Int) × RState)
  | [], s => some ([], s)
  | kind :: rest, s =>
    match percent_roll_check 13 s with
    | none => none
    | some (ok, s1) =>
      if !ok then gen_interactions rest s1
      else
        match randint 0 8 s1 with
        | none => none
        | some (v, s2) =>
          match gen_interactions rest s2 with
          | none => none
          | some (tl, s3) => some ((kind, v) :: tl, s3)

/-- Loop over the drawn tags (src/main.py lines 95-103), building
`tag_interactions` in iteration order (the Python dict keeps insertion order). -/
def gen_tag_interactions : List String → RState → Option (List (String × List (String × Int)) × RState)
  | [], s => some ([], s)
  | tag :: rest, s =>
    match gen_interactions interaction_kinds s with
    | none => none
    | some (im, s1) =>
      match gen_tag_interactions rest s1 with
      | none => none
      | some (tl, s2) => some ((tag, im) :: tl, s2)

/-- The friend-filling loop (src/main.py lines 109-110): `number_of_friends`
draws of `random.randint(1, number_of_people)`, in order. -/
def gen_friend_draws (number_of_people : Nat) : Nat → RState → Option (List Int × RState)
  | 0, s => some ([], s)
  | n + 1, s =>
    match randint 1 (number_of_people : Int) s with
    | none => none
    | some (v, s1) =>
      match gen_friend_draws number_of_people n s1 with
      | none => none
      | some (tl, s2) => some (v :: tl, s2)

/-- One iteration of the person loop (src/main.py lines 85-122) for the outer
index `i`.  The friend loop `for i in range(number_of_friends)` reuses the
outer variable `i`, so after that loop the variable holds
`number_of_friends - 1` when the loop ran at least once and is otherwise still
the person index; `friends.remove(i)` (with `ValueError` swallowed) removes at
most the first occurrence of that value, which `List.erase` models. -/
def gen_person (fake : FState) (number_of_people : Nat) (i : Nat) (s : RState) :
    Option (Person × FState × RState) :=
  let (name, fake1) := fake.next
  match get_random_items tags_vocabulary 8 0 s with
  | none => none
  | some (new_tags, s1) =>
    match gen_tag_interactions new_tags s1 with
    | none => none
    | some (tag_interactions, s2) =>
      match randint 0 10 s2 with
      | none => none
      | some (k, s3) =>
        match gen_friend_draws number_of_people k.toNat s3 with
        | none => none
        | some (raw, s4) =>
          let target : Int := if 1 ≤ k then k - 1 else (i : Int)
          some ({ id := (i : Int) + 1, name := name,
                  tags := tag_interactions, friends := raw.erase target },
                fake1, s4)

/-- The person loop `for i in range(number_of_people)` with `i` starting at
`start` and `n` iterations remaining, accumulating `people` in order. -/
def gen_people_aux (number_of_people : Nat) :
    Nat → Nat → FState → RState → Option (List Person × FState × RState)
  | _, 0, fk, s => some ([], fk, s)
  | i, n + 1, fk, s =>
    match gen_person fk number_of_people i s with
    | none => none
    | some (p, fk1, s1) =>
      match gen_people_aux number_of_people (i + 1) n fk1 s1 with
      | none => none
      | some (ps, fk2, s2) => some (p :: ps, fk2, s2)

/-- `generate_people` (src/main.py lines 69-124). -/
def generate_people (fake : FState) (number_of_people : Nat) (s : RState) :
    Option (List Person × FState × RState) :=
  gen_people_aux number_of_people 0 number_of_people fake s

/-! ## Reciprocity pass (src/main.py lines 127-148) -/

/-- Python list index resolution: indices in `[0, len)` are used directly,
indices in `[-len, 0)` wrap from the end, anything else is an `IndexError`. -/
def pyIndex (len : Nat) (i : Int) : Option Nat :=
  if 0 ≤ i ∧ i < (len : Int) then some i.toNat
  else if -(len : Int) ≤ i ∧ i < 0 then some (i + (len : Int)).toNat
  else none

def pyGet (l : List α) (i : Int) : Option α :=
  match pyIndex l.length i with
  | none => none
  | some n => l.get? n

def pySet (l : List α) (i : Int) (x : α) : Option (List α) :=
  match pyIndex l.length i with
  | none => none
  | some n => some (l.set n x)

/-- The edge loop of `generate_reciprocal_friends` (src/main.py lines 137-146)
for one person: for each `friend_id`, roll `percent_roll_check(50)` (skipping
the edge on `False`), fetch `friend = people[friend_id - 1]`, append
`person_id` to `friend["friends"]` unless already present, and store the
updated friend back (`people[friend_index] = friend`). -/
def reciprocal_inner (person_id : Int) :
    List Int → List Person → RState → Option (List Person × RState)
  | [], people, s => some (people, s)
  | friend_id :: rest, people, s =>
    let friend_index : Int := friend_id - 1
    match percent_roll_check 50 s with
    | none => none
    | some (ok, s1) =>
      if !ok then reciprocal_inner person_id rest people s1
      else
        match pyGet people friend_index with
        | none => none
        | some friend =>
          let friend1 :=
            if person_id ∈ friend.friends then friend
            else { friend with friends := friend.friends ++ [person_id] }
          match pySet people friend_index friend1 with
          | none => none
          | some people1 => reciprocal_inner person_id rest people1 s1

/-- The outer loop `for index, person in enumerate(people)` (src/main.py
line 131), driven by a fuel equal to the (constant) list length.  Each outer
step reads `people[index]` from the current list, so it sees the in-place
updates made while processing earlier persons. -/
def reciprocal_outer : Nat → Nat → List Person → RState → Option (List Person × RState)
  | 0, _, people, s => some (people, s)
  | fuel + 1, index, people, s =>
    match people.get? index with
    | none => some (people, s)
    | some person =>
      match reciprocal_inner ((index : Int) + 1) person.friends people s with
      | none => none
      | some (people1, s1) => reciprocal_outer fuel (index + 1) people1 s1

/-- `generate_reciprocal_friends` (src/main.py lines 127-148). -/
def generate_reciprocal_friends (people : List Person) (s : RState) :
    Option (List Person × RState) :=
  reciprocal_outer people.length 0 people s

/-! ## Metadata and the partitioned output writer (src/main.py lines 43-66,
151-189) -/

/-- The wall-clock instant captured by `datetime.now()`, kept abstract: a local
date string, a local time string, and the UTC ISO-8601 timestamp. -/
structure Wallclock where
  local_date : String
  local_time : String
  utc_timestamp : String
deriving DecidableEq

instance : Inhabited Wallclock := ⟨⟨"", "", ""⟩⟩

/-- The `meta_data` dictionary built by `generate_meta_data` (src/main.py
lines 43-66): `generated_at` (wall clock), the inclusive record index bounds,
the record count, the operating-system user, and the random seed. -/
structure MetaData where
  generated_at : Wallclock
  start_index : Int
  end_index : Int
  number_of_records : Nat
  user : String
  random_seed : Int
deriving DecidableEq

instance : Inhabited MetaData := ⟨⟨default, 0, 0, 0, "", 0⟩⟩

def generate_meta_data (now : Wallclock) (user : String) (number_of_records : Nat)
    (random_seed : Int) (start_index end_index : Int) : MetaData :=
  { generated_at := now, start_index := start_index, end_index := end_index,
    number_of_records := number_of_records, user := user, random_seed := random_seed }

/-- One JSON document written by the output writer: its path and the
`{"meta_data": ..., "data": ...}` payload. -/
structure OutFile where
  path : String
  meta_data : MetaData
  data : List Person
deriving DecidableEq

instance : Inhabited OutFile := ⟨⟨"", default, []⟩⟩

/-- The result of a partitioned run: the directory created with
`Path(output_path).mkdir(parents=True, exist_ok=True)` and the files written. -/
structure RunOutput where
  mkdir_path : String
  files : List OutFile
deriving DecidableEq

/-- The partition-writing loop (src/main.py lines 172-186): for
`i in range(number_of_partitions)`, slice `people[start_index:end_index]` with
`start_index = i * records_per_partition` and
`end_index = start_index + records_per_partition`, and write the document to
`f"{output_path}/{i+1}.json"` with metadata bounds
`(start_index, end_index - 1)`. -/
def partition_files (output_path : String) (people : List Person)
    (number_of_partitions records_per_partition : Nat) (random_seed : Int)
    (now : Wallclock) (user : String) : List OutFile :=
  (List.range number_of_partitions).map (fun i =>
    let start_index := i * records_per_partition
    let end_index := start_index + records_per_partition
    let part := (people.drop start_index).take records_per_partition
    { path := output_path ++ "/" ++ toString (i + 1) ++ ".json",
      meta_data := generate_meta_data now user part.length random_seed
        (start_index : Int) ((end_index : Int) - 1),
      data := part })

/-- `execute` (src/main.py lines 151-189).  `Faker.seed` and `random.seed`
initialise the two draw streams from the seed via the (abstract) generator
implementations `rng` and `fkr`; the wall clock and the OS user are ambient
inputs.  `records_per_partition = int(number_of_people / number_of_partitions)`
is floor division for the non-negative operands used here and raises
`ZeroDivisionError` when the partition count is zero. -/
def execute (rng : Int → Nat → Nat) (fkr : Int → Nat → String)
    (number_of_people : Nat) (random_seed : Int) (number_of_partitions : Nat)
    (output_path : String) (now : Wallclock) (user : String) : Option RunOutput :=
  if number_of_partitions = 0 then none
  else
    let s0 : RState := ⟨rng random_seed, 0⟩
    let f0 : FState := ⟨fkr random_seed, 0⟩
    match generate_people f0 number_of_people s0 with
    | none => none
    | some (people0, _, s1) =>
      match generate_reciprocal_friends people0 s1 with
      | none => none
      | some (people, _) =>
        let records_per_partition := number_of_people / number_of_partitions
        some { mkdir_path := output_path,
               files := partition_files output_path people number_of_partitions
                 records_per_partition random_seed now user }

/-! ## The partitioned CLI entry point (src/main.py lines 192-246) -/

def NUMBER_OF_PEOPLE : Int := 2000
def RANDOM_SEED : Int := 42
def NUMBER_PARTITIONS : Int := 10
def OUTPUT_PATH : String := "output"

def divisibility_diagnostic (n p : Int) : String :=
  "Number of records (" ++ toString n ++
    ") does not evenly divide by number of partitions (" ++ toString p ++ ")"

/-- The `__main__` block (src/main.py lines 236-246) after argument parsing:
`assert args.N % args.Partitions == 0`; on failure print the three diagnostic
lines and raise `argparse.ArgumentTypeError`, never reaching `execute`.
`args.N % args.Partitions` raises `ZeroDivisionError` when the partition count
is zero; for a nonzero partition count, Python's `% == 0` test agrees with
Lean's `% = 0` (both mean divisibility).  Returns the lines printed before
any generation together with either the fatal error message or the run
output. -/
def main_partitioned (rng : Int → Nat → Nat) (fkr : Int → Nat → String)
    (n seed p : Int) (output : String) (now : Wallclock) (user : String) :
    List String × Except String (Option RunOutput) :=
  if p = 0 then
    ([], Except.error "ZeroDivisionError: integer modulo by zero")
  else if n % p = 0 then
    ([], Except.ok (execute rng fkr n.toNat seed p.toNat output now user))
  else
    (["Please specify a number of records and partitions that will be evenly distributed",
      divisibility_diagnostic n p,
      "e.g. 100 into 10 paritions"],
     Except.error "Number of records does not evenly divide by number of partitions")

/-! ## The single-file entry point (spec Mode A) -/

/-- Modelled from the spec: the single-file entry point (spec section 6,
Mode A) is part of this repository but its source file is not under `src/`;
only the partitioned entry point (`src/main.py`) is.  Per the spec it shares
the generation pipeline and writes one JSON document with all N people and one
metadata block (record count and the seed; its index bounds cover the whole
population) to the given output path. -/
def single_file_mode (rng : Int → Nat → Nat) (fkr : Int → Nat → String)
    (n : Nat) (seed : Int) (output : String) (now : Wallclock) (user : String) :
    Option OutFile :=
  let s0 : RState := ⟨rng seed, 0⟩
  let f0 : FState := ⟨fkr seed, 0⟩
  match generate_people f0 n s0 with
  | none => none
  | some (people0, _, s1) =>
    match generate_reciprocal_friends people0 s1 with
    | none => none
    | some (people, _) =>
      some { path := output,
             meta_data := generate_meta_data now user people.length seed 0 ((n : Int) - 1),
             data := people }

/-- Modelled from the spec: Mode A positional-argument defaults,
`N` (record count), `Seed`, `Output` (file path). -/
def single_file_defaults : Int × Int × String := (200, 42, "data.json")

/-! ## The reciprocity pass as the specification words it

`claimed_reciprocity` is written from the claim's description (persons in id
order; per outgoing edge, on a passing threshold-50 d100 roll, append the
person's id to the friend's list iff not already present; lists updated in
place so later iterations see earlier additions), to be compared with the
code-derived `generate_reciprocal_friends`. -/

def add_reverse_edge (people : List Person) (person_id friend_id : Int) : List Person :=
  let fi := (friend_id - 1).toNat
  match people.get? fi with
  | none => people
  | some fr =>
    if person_id ∈ fr.friends then people
    else people.set fi { fr with friends := fr.friends ++ [person_id] }

def claimed_pass_edges (person_id : Int) :
    List Int → List Person → RState → List Person × RState
  | [], people, s => (people, s)
  | friend_id :: rest, people, s =>
    if 50 < ((s.g s.pos % 101 : Nat) : Int) then
      claimed_pass_edges person_id rest (add_reverse_edge people person_id friend_id) s.advance
    else claimed_pass_edges person_id rest people s.advance

def claimed_reciprocity (people : List Person) (s : RState) : List Person × RState :=
  (List.range people.length).foldl
    (fun (st : List Person × RState) (index : Nat) =>
      claimed_pass_edges ((index : Int) + 1) ((st.1.getD index default).friends) st.1 st.2)
    (people, s)

/-! ## The sampler's empty-result probability

The short-circuit of `get_random_items` is decided by a single
`random.randint(0, 100)` roll with 101 equally likely outcomes; the
probability of an empty result is the fraction of those outcomes that produce
one.  A constant draw stream pins the roll to the chosen outcome; outcomes
that do not short-circuit can never yield an empty set, so later draws are
irrelevant to the event. -/

def returns_empty_set (from_list : List String) (max_items chance_is_empty : Int)
    (v : Nat) : Bool :=
  match get_random_items from_list max_items chance_is_empty ⟨fun _ => v, 0⟩ with
  | some ([], _) => true
  | _ => false

def empty_set_probability (from_list : List String) (max_items chance_is_empty : Int) : ℚ :=
  (((Finset.range 101).filter
      (fun v => returns_empty_set from_list max_items chance_is_empty v = true)).card : ℚ) / 101

/-! ## Sampler lemmas -/

theorem sample_items_length {α : Type} {l : List α} :
    ∀ {n : Nat} {s : RState} {r : List α} {s1 : RState},
      sample_items l n s = some (r, s1) → r.length = n := by
  intro n
  induction n with
  | zero =>
    intro s r s1 h
    simp only [sample_items, Option.some.injEq, Prod.mk.injEq] at h
    rw [← h.1]
    rfl
  | succ n ih =>
    intro s r s1 h
    unfold sample_items at h
    split at h
    · exact absurd h (by simp)
    · split at h
      · exact absurd h (by simp)
      · split at h
        · exact absurd h (by simp)
        · next rest s2 hrec =>
          simp only [Option.some.injEq, Prod.mk.injEq] at h
          rw [← h.1]
          simp [ih hrec]

theorem sample_items_total {α : Type} {l : List α} (hl : l ≠ []) :
    ∀ (n : Nat) (s : RState), ∃ r s1, sample_items l n s = some (r, s1) := by
  intro n
  induction n with
  | zero => intro s; exact ⟨[], s, rfl⟩
  | succ n ih =>
    intro s
    have hlen : 1 ≤ l.length := List.length_pos.mpr hl
    have hb : (0 : Int) ≤ (l.length : Int) - 1 := by omega
    have hri := randint_isSome (a := 0) (b := (l.length : Int) - 1) s hb
    have hbounds := randint_bounds hri
    have hidx : (0 + ((s.g s.pos % ((l.length : Int) - 1 - 0 + 1).toNat : Nat) : Int)).toNat
        < l.length := by omega
    have hx := List.get?_eq_get (l := l) hidx
    obtain ⟨rest, s2, hrest⟩ := ih (RState.advance s)
    refine ⟨l.get ⟨_, hidx⟩ :: rest, s2, ?_⟩
    unfold sample_items
    rw [hri]
    dsimp only
    rw [hx, hrest]

theorem sample_items_nil {α : Type} (n : Nat) (hn : 1 ≤ n) (s : RState) :
    sample_items ([] : List α) n s = none := by
  cases n with
  | zero => omega
  | succ n =>
    unfold sample_items
    norm_num [randint]

theorem gri_sample_phase_nil {α : Type} [DecidableEq α] (mi : Int) (s : RState) :
    gri_sample_phase ([] : List α) mi s = none := by
  unfold gri_sample_phase
  by_cases hmi : 1 ≤ mi
  · rw [randint_isSome s hmi]
    simp only
    have hb := randint_bounds (randint_isSome s hmi)
    rw [sample_items_nil _ (by omega) _]
  · have : randint 1 mi s = none := by
      unfold randint
      simp [show mi < 1 by omega]
    rw [this]

theorem gri_sample_phase_ne_nil {α : Type} [DecidableEq α] {l : List α} {mi : Int}
    {s s1 : RState} {r : List α} (h : gri_sample_phase l mi s = some (r, s1)) :
    r ≠ [] := by
  unfold gri_sample_phase at h
  split at h
  · exact absurd h (by simp)
  · next n s2 hri =>
    split at h
    · exact absurd h (by simp)
    · next result s3 hsi =>
      simp only [Option.some.injEq, Prod.mk.injEq] at h
      have hlen := sample_items_length hsi
      have hn := randint_bounds hri
      have : result ≠ [] := by
        intro hres
        rw [hres] at hlen
        simp at hlen
        omega
      rw [← h.1]
      simpa [List.dedup_eq_nil] using this

theorem gri_total {α : Type} [DecidableEq α] {l : List α} (hl : l ≠ []) (mi : Int)
    (hmi : 1 ≤ mi) (c : Int) (s : RState) :
    ∃ r s1, get_random_items l mi c s = some (r, s1) := by
  have hphase : ∀ s2 : RState, ∃ r s1, gri_sample_phase l mi s2 = some (r, s1) := by
    intro s2
    obtain ⟨n, s3, hri⟩ : ∃ n s3, randint 1 mi s2 = some (n, s3) :=
      ⟨_, _, randint_isSome s2 hmi⟩
    obtain ⟨r, s4, hsi⟩ := sample_items_total hl n.toNat s3
    exact ⟨r.dedup, s4, by unfold gri_sample_phase; rw [hri]; simp only; rw [hsi]⟩
  unfold get_random_items
  split
  · rw [percent_roll_check_eq]
    simp only
    split
    · exact ⟨[], s.advance, rfl⟩
    · exact hphase s.advance
  · exact hphase s

theorem returns_empty_set_eq {l : List String} {mi c : Int} (hc : c ≠ 0) (v : Nat) :
    returns_empty_set l mi c v = decide (((v % 101 : Nat) : Int) ≤ c) := by
  unfold returns_empty_set get_random_items
  rw [if_pos hc, percent_roll_check_eq]
  dsimp only
  by_cases hle : ((v % 101 : Nat) : Int) ≤ c
  · rw [if_pos (by simpa using not_lt.mpr hle), decide_eq_true hle]
  · rw [if_neg (by simpa using not_le.mp hle), decide_eq_false hle]
    cases hphase : gri_sample_phase l mi (RState.advance ⟨fun _ => v, 0⟩) with
    | none => rfl
    | some p =>
      obtain ⟨r, s1⟩ := p
      have hr := gri_sample_phase_ne_nil hphase
      cases r with
      | nil => exact absurd rfl hr
      | cons a as => rfl

theorem empty_probability_eq {l : List String} {mi : Int} {c : Int}
    (h0 : 0 < c) (h100 : c ≤ 100) :
    empty_set_probability l mi c = ((c : ℚ) + 1) / 101 := by
  have hcard : ((Finset.range 101).filter
      (fun v => returns_empty_set l mi c v = true)).card = c.toNat + 1 := by
    have hpred : ∀ v ∈ Finset.range 101,
        (returns_empty_set l mi c v = true) ↔ (v < c.toNat + 1) := by
      intro v hv
      rw [Finset.mem_range] at hv
      rw [returns_empty_set_eq (by omega) v, Nat.mod_eq_of_lt hv]
      simp only [decide_eq_true_eq]
      omega
    rw [Finset.filter_congr hpred]
    have hrange : (Finset.range 101).filter (fun v => v < c.toNat + 1)
        = Finset.range (c.toNat + 1) := by
      ext x
      simp only [Finset.mem_filter, Finset.mem_range]
      omega
    rw [hrange, Finset.card_range]
  unfold empty_set_probability
  rw [hcard]
  have hc : ((c.toNat + 1 : Nat) : ℚ) = (c : ℚ) + 1 := by
    have h1 : ((c.toNat : ℤ) : ℚ) = (c : ℚ) := by rw [Int.toNat_of_nonneg (le_of_lt h0)]
    push_cast
    push_cast at h1
    rw [h1]
  rw [hc]

/-- C9: `get_random_items` has an unstated non-empty-source precondition.  On an
empty source list, whenever the empty-result short-circuit is not taken (in
particular whenever `chance_is_empty = 0`), the function fails (`ValueError`
from the draw over the empty index range `[0, -1]`) instead of returning a
set. -/
theorem get_random_items_empty_source_fails {α : Type} [DecidableEq α] (mi c : Int)
    (s : RState) (h : c = 0 ∨ c < ((s.g s.pos % 101 : Nat) : Int)) :
    get_random_items ([] : List α) mi c s = none := by
  unfold get_random_items
  by_cases hc : c ≠ 0
  · rw [if_pos hc, percent_roll_check_eq]
    dsimp only
    have hroll : c < ((s.g s.pos % 101 : Nat) : Int) := by
      rcases h with h0 | hroll
      · exact absurd h0 hc
      · exact hroll
    rw [if_neg (by simpa using not_le.mpr hroll)]
    exact gri_sample_phase_nil mi s.advance
  · rw [if_neg hc]
    exact gri_sample_phase_nil mi s

/-- Witness for C9 at `max_items = 1`, `chance_is_empty = 0`, a concrete
stream. -/
theorem get_random_items_empty_source_fails_witness :
    get_random_items ([] : List String) 1 0 ⟨fun _ => 0, 0⟩ = none :=
  get_random_items_empty_source_fails 1 0 ⟨fun _ => 0, 0⟩ (Or.inl rfl)

/-- C7 counterexample: with `chance_is_empty = 50` (and any source list and
`max_items`; here `["a"]` and `8`), the probability that `get_random_items`
returns the empty set is `51/101`, not `50/100`: the short-circuit roll
`random.randint(0, 100)` has 101 equally likely outcomes and passes on
`value <= 50`. -/
theorem sampler_empty_chance_cex :
    empty_set_probability ["a"] 8 50 = 51 / 101 ∧
      empty_set_probability ["a"] 8 50 ≠ 50 / 100 := by
  have h := @empty_probability_eq ["a"] 8 50 (by norm_num) (by norm_num)
  rw [h]
  norm_num

/-- C7 (amended): for `0 < chance_is_empty ≤ 100` the sampler short-circuits to
the empty set with probability `(chance_is_empty + 1)/101`, independently of
the source list and of `max_items`; for `chance_is_empty = 0` it never returns
the empty set for a non-empty source list. -/
theorem sampler_empty_chance_amended :
    (∀ (l : List String) (mi c : Int), 0 < c → c ≤ 100 →
        empty_set_probability l mi c = ((c : ℚ) + 1) / 101) ∧
    (∀ (l : List String) (mi : Int) (s : RState) (r : List String) (s1 : RState),
        l ≠ [] → get_random_items l mi 0 s = some (r, s1) → r ≠ []) := by
  constructor
  · intro l mi c h0 h100
    exact empty_probability_eq h0 h100
  · intro l mi s r s1 _ h
    have : gri_sample_phase l mi s = some (r, s1) := by
      unfold get_random_items at h
      simpa using h
    exact gri_sample_phase_ne_nil this

/-- Witness for the amended C7: at `chance_is_empty = 50` the probability is
`51/101`, and a concrete `chance_is_empty = 0` run on `["a"]` returns a
non-empty set. -/
theorem sampler_empty_chance_amended_witness :
    empty_set_probability ["a"] 8 50 = ((50 : ℚ) + 1) / 101 ∧
      (["a"] : List String) ≠ [] :=
  ⟨sampler_empty_chance_amended.1 ["a"] 8 50 (by norm_num) (by norm_num),
   sampler_empty_chance_amended.2 ["a"] 1 ⟨fun _ => 0, 0⟩ ["a"] ⟨fun _ => 0, 2⟩
     (by simp) rfl⟩

/-! ## Person-generation lemmas -/

theorem gen_interactions_total :
    ∀ (kinds : List String) (s : RState),
      ∃ r s1, gen_interactions kinds s = some (r, s1) := by
  intro kinds
  induction kinds with
  | nil => intro s; exact ⟨[], s, rfl⟩
  | cons kind rest ih =>
    intro s
    unfold gen_interactions
    rw [percent_roll_check_eq]
    dsimp only
    cases hd : decide ((13 : Int) < ((s.g s.pos % 101 : Nat) : Int)) with
    | false =>
      rw [if_pos (by simp)]
      exact ih s.advance
    | true =>
      rw [if_neg (by simp)]
      rw [randint_isSome s.advance (by norm_num)]
      dsimp only
      obtain ⟨tl, s3, htl⟩ := ih s.advance.advance
      rw [htl]
      exact ⟨_, s3, rfl⟩

theorem gen_tag_interactions_total :
    ∀ (tags : List String) (s : RState),
      ∃ r s1, gen_tag_interactions tags s = some (r, s1) := by
  intro tags
  induction tags with
  | nil => intro s; exact ⟨[], s, rfl⟩
  | cons tag rest ih =>
    intro s
    unfold gen_tag_interactions
    obtain ⟨im, s1, him⟩ := gen_interactions_total interaction_kinds s
    rw [him]
    dsimp only
    obtain ⟨tl, s2, htl⟩ := ih s1
    rw [htl]
    exact ⟨_, s2, rfl⟩

theorem gen_friend_draws_props {N : Nat} (hN : 1 ≤ N) :
    ∀ (n : Nat) (s : RState),
      ∃ r s1, gen_friend_draws N n s = some (r, s1) ∧ r.length = n ∧
        ∀ x ∈ r, 1 ≤ x ∧ x ≤ (N : Int) := by
  intro n
  induction n with
  | zero => intro s; exact ⟨[], s, rfl, rfl, by simp⟩
  | succ n ih =>
    intro s
    have hri := randint_isSome (a := 1) (b := (N : Int)) s (by exact_mod_cast hN)
    have hb := randint_bounds hri
    obtain ⟨tl, s2, htl, hlen, hmem⟩ := ih s.advance
    refine ⟨(1 + ((s.g s.pos % ((N : Int) - 1 + 1).toNat : Nat) : Int)) :: tl, s2, ?_, ?_, ?_⟩
    · unfold gen_friend_draws
      rw [hri]
      dsimp only
      rw [htl]
    · simp [hlen]
    · intro x hx
      rcases List.mem_cons.mp hx with hx0 | hx1
      · rw [hx0]; exact hb
      · exact hmem x hx1

theorem gen_person_spec (fk : FState) {N : Nat} (i : Nat) (s : RState) (hN : 1 ≤ N) :
    ∃ p fk1 s1, gen_person fk N i s = some (p, fk1, s1) ∧
      p.id = (i : Int) + 1 ∧
      ∃ (kn : Nat) (raw : List Int),
        kn ≤ 10 ∧ raw.length = kn ∧ (∀ x ∈ raw, 1 ≤ x ∧ x ≤ (N : Int)) ∧
        p.friends = raw.erase (if 1 ≤ kn then ((kn : Int) - 1) else (i : Int)) := by
  have htags : tags_vocabulary ≠ [] := by simp [tags_vocabulary]
  obtain ⟨new_tags, s1, hgri⟩ := gri_total htags 8 (by norm_num) 0 s
  obtain ⟨ti, s2, hti⟩ := gen_tag_interactions_total new_tags s1
  have hk := randint_isSome (a := 0) (b := 10) s2 (by norm_num)
  have hkb := randint_bounds hk
  set k : Int := 0 + ((s2.g s2.pos % ((10 : Int) - 0 + 1).toNat : Nat) : Int) with hkdef
  obtain ⟨raw, s4, hraw, hrawlen, hrawmem⟩ := gen_friend_draws_props hN k.toNat s2.advance
  have heq : gen_person fk N i s
      = some ({ id := (i : Int) + 1, name := fk.f fk.pos, tags := ti,
                friends := raw.erase (if 1 ≤ k then k - 1 else (i : Int)) },
              ⟨fk.f, fk.pos + 1⟩, s4) := by
    unfold gen_person FState.next
    rw [hgri]
    dsimp only
    rw [hti]
    dsimp only
    rw [hk]
    dsimp only
    rw [hraw]
  refine ⟨_, _, _, heq, rfl, k.toNat, raw, by omega, hrawlen, hrawmem, ?_⟩
  dsimp only
  congr 1
  have h0k : 0 ≤ k := hkb.1
  by_cases h1 : 1 ≤ k
  · rw [if_pos h1, if_pos (by omega)]
    omega
  · rw [if_neg h1, if_neg (by omega)]

theorem gen_people_aux_spec {N : Nat} (hN : 1 ≤ N) :
    ∀ (n i : Nat) (fk : FState) (s : RState),
      ∃ ppl fk1 s1, gen_people_aux N i n fk s = some (ppl, fk1, s1) ∧
        ppl.length = n ∧
        (∀ j, j < n → (ppl.getD j default).id = ((i + j : Nat) : Int) + 1) ∧
        (∀ p ∈ ppl, ∀ x ∈ p.friends, 1 ≤ x ∧ x ≤ (N : Int)) := by
  intro n
  induction n with
  | zero =>
    intro i fk s
    exact ⟨[], fk, s, rfl, rfl, fun j hj => absurd hj (Nat.not_lt_zero j), by simp⟩
  | succ n ih =>
    intro i fk s
    obtain ⟨p, fk1, s1, hp, hpid, kn, raw, hkn, hrawlen, hrawmem, hpfr⟩ :=
      gen_person_spec fk i s hN
    obtain ⟨ps, fk2, s2, hps, hpslen, hpsid, hpsfr⟩ := ih (i + 1) fk1 s1
    refine ⟨p :: ps, fk2, s2, ?_, by simp [hpslen], ?_, ?_⟩
    · unfold gen_people_aux
      rw [hp]
      dsimp only
      rw [hps]
    · intro j hj
      cases j with
      | zero => simpa using hpid
      | succ j =>
        have hj2 : j < n := by omega
        rw [List.getD_cons_succ, hpsid j hj2]
        omega
    · intro q hq x hx
      rcases List.mem_cons.mp hq with h0 | h1
      · rw [h0, hpfr] at hx
        exact hrawmem x (List.erase_subset _ _ hx)
      · exact hpsfr q h1 x hx

theorem generate_people_spec (fk : FState) (N : Nat) (s : RState) :
    ∃ ppl fk1 s1, generate_people fk N s = some (ppl, fk1, s1) ∧
      ppl.length = N ∧
      (∀ j, j < N → (ppl.getD j default).id = (j : Int) + 1) ∧
      (∀ p ∈ ppl, ∀ x ∈ p.friends, 1 ≤ x ∧ x ≤ (N : Int)) := by
  cases N with
  | zero =>
    exact ⟨[], fk, s, rfl, rfl, fun j hj => absurd hj (Nat.not_lt_zero j), by simp⟩
  | succ n =>
    obtain ⟨ppl, fk1, s1, h, hlen, hid, hfr⟩ :=
      @gen_people_aux_spec (n + 1) (by omega) (n + 1) 0 fk s
    exact ⟨ppl, fk1, s1, h, hlen, fun j hj => by simpa using hid j hj, hfr⟩

/-! ## Reciprocity-pass lemmas -/

/-- Friend ids reference valid (1-based) positions of the people list. -/
def FriendsBound (ppl : List Person) : Prop :=
  ∀ p ∈ ppl, ∀ x ∈ p.friends, 1 ≤ x ∧ x ≤ (ppl.length : Int)

/-- The reciprocity pass only ever touches the `friends` field: ids, names and
tag maps agree position by position. -/
def SamePersons (a b : List Person) : Prop :=
  ∀ j : Nat, (b.getD j default).id = (a.getD j default).id ∧
    (b.getD j default).name = (a.getD j default).name ∧
    (b.getD j default).tags = (a.getD j default).tags

theorem samePersons_refl (a : List Person) : SamePersons a a :=
  fun _ => ⟨Eq.refl _, Eq.refl _, Eq.refl _⟩

theorem samePersons_trans {a b c : List Person}
    (h1 : SamePersons a b) (h2 : SamePersons b c) : SamePersons a c :=
  fun j => ⟨(h2 j).1.trans (h1 j).1, (h2 j).2.1.trans (h1 j).2.1,
    (h2 j).2.2.trans (h1 j).2.2⟩

theorem pyGet_pos {l : List Person} {fid : Int} (h1 : 1 ≤ fid)
    (h2 : fid ≤ (l.length : Int)) :
    pyGet l (fid - 1) = l.get? (fid - 1).toNat := by
  unfold pyGet pyIndex
  rw [if_pos ⟨by omega, by omega⟩]

theorem pySet_pos {l : List Person} {fid : Int} (x : Person) (h1 : 1 ≤ fid)
    (h2 : fid ≤ (l.length : Int)) :
    pySet l (fid - 1) x = some (l.set (fid - 1).toNat x) := by
  unfold pySet pyIndex
  rw [if_pos ⟨by omega, by omega⟩]

theorem set_get_self {l : List Person} {n : Nat} (h : n < l.length) :
    l.set n (l.get ⟨n, h⟩) = l := by
  apply List.ext_get?
  intro m
  by_cases hm : n = m
  · subst hm
    rw [List.get?_set_eq_of_lt _ h]
    exact (List.get?_eq_get h).symm
  · rw [List.get?_set_ne _ _ hm]

theorem getD_set_self {l : List Person} {n : Nat} {a : Person} (h : n < l.length) :
    (l.set n a).getD n default = a := by
  rw [List.getD_eq_getD_get?, List.get?_set_eq_of_lt _ h]
  rfl

theorem getD_set_ne {l : List Person} {n j : Nat} {a : Person} (h : n ≠ j) :
    (l.set n a).getD j default = l.getD j default := by
  rw [List.getD_eq_getD_get?, List.get?_set_ne _ _ h, ← List.getD_eq_getD_get?]

theorem reciprocal_inner_eq {pid : Int} :
    ∀ (fl : List Int) (ppl : List Person) (s : RState),
      (∀ f ∈ fl, 1 ≤ f ∧ f ≤ (ppl.length : Int)) →
      1 ≤ pid → pid ≤ (ppl.length : Int) →
      FriendsBound ppl →
      ∃ ppl1 s1, reciprocal_inner pid fl ppl s = some (ppl1, s1) ∧
        claimed_pass_edges pid fl ppl s = (ppl1, s1) ∧
        ppl1.length = ppl.length ∧ FriendsBound ppl1 ∧ SamePersons ppl ppl1 := by
  intro fl
  induction fl with
  | nil =>
    intro ppl s _ _ _ hb
    exact ⟨ppl, s, rfl, rfl, rfl, hb, samePersons_refl ppl⟩
  | cons fid rest ih =>
    intro ppl s hfl hp1 hp2 hb
    have hfid := hfl fid (List.mem_cons_self fid rest)
    have hrest : ∀ f ∈ rest, 1 ≤ f ∧ f ≤ (ppl.length : Int) :=
      fun f hf => hfl f (List.mem_cons_of_mem _ hf)
    unfold reciprocal_inner claimed_pass_edges
    rw [percent_roll_check_eq]
    dsimp only
    cases hd : decide ((50 : Int) < ((s.g s.pos % 101 : Nat) : Int)) with
    | false =>
      rw [if_pos (by simp)]
      rw [if_neg (of_decide_eq_false hd)]
      exact ih ppl s.advance hrest hp1 hp2 hb
    | true =>
      rw [if_neg (by simp)]
      rw [if_pos (of_decide_eq_true hd)]
      have hidx : (fid - 1).toNat < ppl.length := by omega
      have hget : pyGet ppl (fid - 1) = some (ppl.get ⟨(fid - 1).toNat, hidx⟩) := by
        rw [pyGet_pos hfid.1 hfid.2]
        exact List.get?_eq_get hidx
      rw [hget]
      dsimp only
      by_cases hmem : pid ∈ (ppl.get ⟨(fid - 1).toNat, hidx⟩).friends
      · rw [if_pos hmem]
        rw [pySet_pos _ hfid.1 hfid.2]
        dsimp only
        rw [set_get_self hidx]
        have hare : add_reverse_edge ppl pid fid = ppl := by
          unfold add_reverse_edge
          dsimp only
          rw [List.get?_eq_get hidx]
          dsimp only
          rw [if_pos hmem]
        rw [hare]
        exact ih ppl s.advance hrest hp1 hp2 hb
      · rw [if_neg hmem]
        rw [pySet_pos _ hfid.1 hfid.2]
        dsimp only
        have hare : add_reverse_edge ppl pid fid
            = ppl.set (fid - 1).toNat
                { ppl.get ⟨(fid - 1).toNat, hidx⟩ with
                  friends := (ppl.get ⟨(fid - 1).toNat, hidx⟩).friends ++ [pid] } := by
          unfold add_reverse_edge
          dsimp only
          rw [List.get?_eq_get hidx]
          dsimp only
          rw [if_neg hmem]
        rw [hare]
        have hlen1 : (ppl.set (fid - 1).toNat
            { ppl.get ⟨(fid - 1).toNat, hidx⟩ with
              friends := (ppl.get ⟨(fid - 1).toNat, hidx⟩).friends ++ [pid] }).length
            = ppl.length := List.length_set ppl _ _
        have hb1 : FriendsBound (ppl.set (fid - 1).toNat
            { ppl.get ⟨(fid - 1).toNat, hidx⟩ with
              friends := (ppl.get ⟨(fid - 1).toNat, hidx⟩).friends ++ [pid] }) := by
          intro q hq x hx
          rw [hlen1]
          rcases List.mem_or_eq_of_mem_set hq with hq1 | hq2
          · exact hb q hq1 x hx
          · rw [hq2] at hx
            dsimp only at hx
            rcases List.mem_append.mp hx with hx1 | hx2
            · exact hb _ (List.get_mem ppl _ hidx) x hx1
            · rw [List.mem_singleton.mp hx2]
              exact ⟨hp1, hp2⟩
        have hstep : SamePersons ppl (ppl.set (fid - 1).toNat
            { ppl.get ⟨(fid - 1).toNat, hidx⟩ with
              friends := (ppl.get ⟨(fid - 1).toNat, hidx⟩).friends ++ [pid] }) := by
          intro j
          by_cases hj : (fid - 1).toNat = j
          · rw [← hj]
            rw [getD_set_self hidx]
            rw [List.getD_eq_get ppl default hidx]
            exact ⟨rfl, rfl, rfl⟩
          · rw [getD_set_ne hj]
            exact ⟨rfl, rfl, rfl⟩
        obtain ⟨ppl2, s2, hi, hc, hl, hb2, hsp⟩ :=
          ih _ s.advance (fun f hf => by rw [hlen1]; exact hrest f hf)
            hp1 (by rw [hlen1]; exact hp2) hb1
        exact ⟨ppl2, s2, hi, hc, by rw [hl, hlen1], hb2, samePersons_trans hstep hsp⟩

theorem reciprocal_outer_eq :
    ∀ (fuel index : Nat) (ppl : List Person) (s : RState),
      FriendsBound ppl →
      fuel + index = ppl.length →
      ∃ ppl1 s1, reciprocal_outer fuel index ppl s = some (ppl1, s1) ∧
        (List.range' index fuel).foldl
          (fun (st : List Person × RState) (idx : Nat) =>
            claimed_pass_edges ((idx : Int) + 1) ((st.1.getD idx default).friends) st.1 st.2)
          (ppl, s) = (ppl1, s1) ∧
        ppl1.length = ppl.length ∧ FriendsBound ppl1 ∧ SamePersons ppl ppl1 := by
  intro fuel
  induction fuel with
  | zero =>
    intro index ppl s hb _
    exact ⟨ppl, s, rfl, rfl, rfl, hb, samePersons_refl ppl⟩
  | succ fuel ih =>
    intro index ppl s hb hlen
    have hidx : index < ppl.length := by omega
    have hget : ppl.get? index = some (ppl.get ⟨index, hidx⟩) := List.get?_eq_get hidx
    have hperson := hb _ (List.get_mem ppl index hidx)
    have hpid1 : (1 : Int) ≤ (index : Int) + 1 := by omega
    have hpid2 : (index : Int) + 1 ≤ (ppl.length : Int) := by omega
    obtain ⟨ppl1, s1, hi, hc, hlen1, hb1, hsp1⟩ :=
      reciprocal_inner_eq (ppl.get ⟨index, hidx⟩).friends ppl s hperson hpid1 hpid2 hb
    obtain ⟨ppl2, s2, hi2, hc2, hlen2, hb2, hsp2⟩ :=
      ih (index + 1) ppl1 s1 hb1 (by omega)
    refine ⟨ppl2, s2, ?_, ?_, by omega, hb2, samePersons_trans hsp1 hsp2⟩
    · unfold reciprocal_outer
      rw [hget]
      dsimp only
      rw [hi]
      exact hi2
    · rw [List.range'_succ, List.foldl_cons]
      dsimp only
      rw [List.getD_eq_get ppl default hidx, hc]
      exact hc2

theorem generate_reciprocal_friends_spec {ppl : List Person} (s : RState)
    (hb : FriendsBound ppl) :
    ∃ ppl1 s1, generate_reciprocal_friends ppl s = some (ppl1, s1) ∧
      claimed_reciprocity ppl s = (ppl1, s1) ∧
      ppl1.length = ppl.length ∧ FriendsBound ppl1 ∧ SamePersons ppl ppl1 := by
  obtain ⟨ppl1, s1, hi, hc, hlen, hb1, hsp⟩ :=
    reciprocal_outer_eq ppl.length 0 ppl s hb (by omega)
  refine ⟨ppl1, s1, hi, ?_, hlen, hb1, hsp⟩
  unfold claimed_reciprocity
  rw [List.range_eq_range']
  exact hc

/-- C6: `generate_reciprocal_friends` iterates persons in id order; per
outgoing edge `person_id → friend_id` it rolls the threshold-50 d100 check
and, on a pass, appends `person_id` to the friend's list iff not already
present; the mutation is in place, so edges processed later in the single
pass observe the additions made for earlier persons.  `claimed_reciprocity`
is exactly that description (a fold in id order threading the partially
mutated list); on any people list whose friend ids are valid 1-based person
ids the code-derived pass equals it. -/
theorem reciprocity_pass_matches_claim {ppl : List Person} (s : RState)
    (hb : ∀ p ∈ ppl, ∀ x ∈ p.friends, 1 ≤ x ∧ x ≤ (ppl.length : Int)) :
    generate_reciprocal_friends ppl s = some (claimed_reciprocity ppl s) := by
  obtain ⟨ppl1, s1, hi, hc, _, _, _⟩ := generate_reciprocal_friends_spec s hb
  rw [hi, hc]

/-- Witness for C6 on a concrete two-person list. -/
theorem reciprocity_pass_matches_claim_witness :
    generate_reciprocal_friends [⟨1, "a", [], [2]⟩, ⟨2, "b", [], [1]⟩] ⟨fun _ => 60, 0⟩
      = some (claimed_reciprocity [⟨1, "a", [], [2]⟩, ⟨2, "b", [], [1]⟩] ⟨fun _ => 60, 0⟩) :=
  reciprocity_pass_matches_claim ⟨fun _ => 60, 0⟩ (by
    intro p hp x hx
    rcases List.mem_cons.mp hp with h1 | h1
    · subst h1
      simp only [List.length_cons, List.length_nil] at hx ⊢
      rcases List.mem_singleton.mp hx with h2
      rw [h2]
      norm_num
    · rcases List.mem_singleton.mp h1 with h2
      rw [h2] at hx
      rcases List.mem_singleton.mp hx with h3
      rw [h3]
      norm_num)

/-- C4: after generation and after the reciprocity pass, every person id
satisfies `1 ≤ id ≤ N`, ids are unique and contiguous (the record at position
`i` has id `i+1`), and every friend id is a valid person id in `[1, N]`. -/
theorem ids_and_friend_bounds_invariant (fk : FState) (N : Nat) (s : RState)
    {ppl0 : List Person} {fk1 : FState} {s1 : RState} {ppl1 : List Person}
    {s2 : RState}
    (h1 : generate_people fk N s = some (ppl0, fk1, s1))
    (h2 : generate_reciprocal_friends ppl0 s1 = some (ppl1, s2)) :
    ppl0.length = N ∧ ppl1.length = N ∧
    (∀ j, j < N → (ppl0.getD j default).id = (j : Int) + 1 ∧
                  (ppl1.getD j default).id = (j : Int) + 1) ∧
    (∀ p ∈ ppl0, ∀ x ∈ p.friends, 1 ≤ x ∧ x ≤ (N : Int)) ∧
    (∀ p ∈ ppl1, ∀ x ∈ p.friends, 1 ≤ x ∧ x ≤ (N : Int)) := by
  obtain ⟨ppl0x, fk1x, s1x, h1x, hlen, hid, hfr⟩ := generate_people_spec fk N s
  rw [h1x] at h1
  simp only [Option.some.injEq, Prod.mk.injEq] at h1
  obtain ⟨e1, e2, e3⟩ := h1
  subst e1
  subst e3
  have hb0 : FriendsBound ppl0x := by
    intro p hp x hx
    rw [hlen]
    exact hfr p hp x hx
  obtain ⟨ppl1x, s2x, hix, hcx, hlenx, hb1, hsp⟩ := generate_reciprocal_friends_spec s1x hb0
  rw [hix] at h2
  simp only [Option.some.injEq, Prod.mk.injEq] at h2
  obtain ⟨f1, f2⟩ := h2
  subst f1
  subst f2
  refine ⟨hlen, hlenx.trans hlen, ?_, hfr, ?_⟩
  · intro j hj
    exact ⟨hid j hj, ((hsp j).1).trans (hid j hj)⟩
  · intro p hp x hx
    have hx2 := hb1 p hp x hx
    rw [hlenx, hlen] at hx2
    exact hx2

/-- Witness for C4 at `N = 2` with concrete streams. -/
theorem ids_and_friend_bounds_invariant_witness :
    ∃ (ppl0 ppl1 : List Person) (fk1 : FState) (s1 s2 : RState),
      generate_people ⟨fun _ => "nm", 0⟩ 2 ⟨fun _ => 0, 0⟩ = some (ppl0, fk1, s1) ∧
      generate_reciprocal_friends ppl0 s1 = some (ppl1, s2) ∧
      ppl0.length = 2 ∧ ppl1.length = 2 := by
  obtain ⟨ppl0, fk1, s1, h1, hlen, hid, hfr⟩ :=
    generate_people_spec ⟨fun _ => "nm", 0⟩ 2 ⟨fun _ => 0, 0⟩
  have hb0 : FriendsBound ppl0 := by
    intro p hp x hx
    rw [hlen]
    exact hfr p hp x hx
  obtain ⟨ppl1, s2, h2, -, -, -, -⟩ := generate_reciprocal_friends_spec s1 hb0
  have hmain := ids_and_friend_bounds_invariant ⟨fun _ => "nm", 0⟩ 2 ⟨fun _ => 0, 0⟩ h1 h2
  exact ⟨ppl0, ppl1, fk1, s1, s2, h1, h2, hmain.1, hmain.2.1⟩

/-- C5: for each generated person, a friend count `k` is drawn in `[0, 10]`
and the friend list is filled with `k` draws from `[1, N]`; afterwards at most
one occurrence of the value held by the reused loop-index variable is removed:
for `k ≥ 1` that value is the last inner-loop index `k - 1` (not the person's
own id), and for `k = 0` the friend list stays empty.  The final multiplicity
equation shows exactly one occurrence of the target is removed when present
and nothing else changes. -/
theorem friend_list_removal_artifact (fk : FState) {N : Nat} (i : Nat)
    (s : RState) (hN : 1 ≤ N) {p : Person} {fk1 : FState} {s1 : RState}
    (h : gen_person fk N i s = some (p, fk1, s1)) :
    ∃ (k : Nat) (raw : List Int),
      k ≤ 10 ∧ raw.length = k ∧ (∀ x ∈ raw, 1 ≤ x ∧ x ≤ (N : Int)) ∧
      p.friends = raw.erase (if 1 ≤ k then ((k : Int) - 1) else (i : Int)) ∧
      (k = 0 → p.friends = []) ∧
      (∀ v : Int,
        p.friends.count v
          = raw.count v
            - (if (if 1 ≤ k then ((k : Int) - 1) else (i : Int)) = v then 1 else 0)) := by
  obtain ⟨px, fk1x, s1x, hx, hid, k, raw, hk, hlen, hmem, hfr⟩ := gen_person_spec fk i s hN
  rw [hx] at h
  simp only [Option.some.injEq, Prod.mk.injEq] at h
  obtain ⟨e1, e2, e3⟩ := h
  subst e1
  subst e3
  refine ⟨k, raw, hk, hlen, hmem, hfr, ?_, ?_⟩
  · intro hk0
    subst hk0
    have hnil : raw = [] := List.length_eq_zero.mp hlen
    rw [hfr, hnil]
    rfl
  · intro v
    rw [hfr, List.count_erase]
    congr 1
    simp [beq_iff_eq]

/-- Witness for C5 at `N = 1`, person index `0`, concrete streams. -/
theorem friend_list_removal_artifact_witness :
    ∃ (p : Person) (fk1 : FState) (s1 : RState) (k : Nat) (raw : List Int),
      gen_person ⟨fun _ => "nm", 0⟩ 1 0 ⟨fun _ => 0, 0⟩ = some (p, fk1, s1) ∧
      k ≤ 10 ∧ raw.length = k ∧
      p.friends = raw.erase (if 1 ≤ k then ((k : Int) - 1) else ((0 : Nat) : Int)) := by
  obtain ⟨p, fk1, s1, h, -, -⟩ :=
    gen_person_spec ⟨fun _ => "nm", 0⟩ 0 ⟨fun _ => 0, 0⟩ (le_refl 1)
  obtain ⟨k, raw, hk, hlen, hmem, hfr, -, -⟩ :=
    friend_list_removal_artifact ⟨fun _ => "nm", 0⟩ 0 ⟨fun _ => 0, 0⟩ (le_refl 1) h
  exact ⟨p, fk1, s1, k, raw, h, hk, hlen, hfr⟩

/-! ## Multiplicity preservation of the reciprocity pass -/

/-- Each friend list's id-multiplicities after a pass segment are bounded by
`max 1` of the multiplicities before it. -/
def CountLe (a b : List Person) : Prop :=
  a.length = b.length ∧
  ∀ (j : Nat) (v : Int),
    (b.getD j default).friends.count v ≤ max 1 ((a.getD j default).friends.count v)

theorem countLe_refl (a : List Person) : CountLe a a :=
  ⟨Eq.refl _, fun _ _ => le_max_right _ _⟩

theorem countLe_trans {a b c : List Person} (h1 : CountLe a b) (h2 : CountLe b c) :
    CountLe a c := by
  refine ⟨h1.1.trans h2.1, fun j v => ?_⟩
  have hbc := h2.2 j v
  have hab := h1.2 j v
  have : max 1 ((b.getD j default).friends.count v)
      ≤ max 1 ((a.getD j default).friends.count v) := by
    omega
  omega

theorem countLe_set_step {ppl : List Person} {n : Nat} {fr : Person} (pid : Int)
    (hget : ppl.get? n = some fr) :
    CountLe ppl (ppl.set n
      (if pid ∈ fr.friends then fr
       else { fr with friends := fr.friends ++ [pid] })) := by
  have hn : n < ppl.length := by
    rcases List.get?_eq_some.mp hget with ⟨h, -⟩
    exact h
  refine ⟨(List.length_set ppl _ _).symm, fun j v => ?_⟩
  by_cases hj : n = j
  · subst hj
    rw [getD_set_self hn]
    have hgd : ppl.getD n default = fr := by
      rw [List.getD_eq_getD_get?, hget]
      rfl
    rw [hgd]
    by_cases hmem : pid ∈ fr.friends
    · rw [if_pos hmem]
      exact le_max_right _ _
    · rw [if_neg hmem]
      dsimp only
      rw [List.count_append]
      by_cases hv : v = pid
      · subst hv
        have h0 : fr.friends.count v = 0 := List.count_eq_zero.mpr hmem
        rw [h0]
        simp [List.count_singleton]
      · have h1 : List.count v [pid] = 0 := by
          rw [List.count_eq_zero]
          simp
          intro hvp
          exact hv hvp
        rw [h1]
        have := le_max_right 1 (fr.friends.count v)
        omega
  · rw [getD_set_ne hj]
    exact le_max_right _ _

theorem reciprocal_inner_countLe {pid : Int} :
    ∀ (fl : List Int) (ppl : List Person) (s : RState) {ppl1 : List Person}
      {s1 : RState},
      reciprocal_inner pid fl ppl s = some (ppl1, s1) → CountLe ppl ppl1 := by
  intro fl
  induction fl with
  | nil =>
    intro ppl s ppl1 s1 h
    simp only [reciprocal_inner, Option.some.injEq, Prod.mk.injEq] at h
    rw [h.1]
    exact countLe_refl ppl1
  | cons fid rest ih =>
    intro ppl s ppl1 s1 h
    unfold reciprocal_inner at h
    rw [percent_roll_check_eq] at h
    dsimp only at h
    split at h
    · exact ih ppl s.advance h
    · unfold pyGet pySet at h
      cases hpi : pyIndex ppl.length (fid - 1) with
      | none =>
        rw [hpi] at h
        dsimp only at h
        exact absurd h (by simp)
      | some n =>
        rw [hpi] at h
        dsimp only at h
        cases hget : ppl.get? n with
        | none =>
          rw [hget] at h
          exact absurd h (by simp)
        | some fr =>
          rw [hget] at h
          dsimp only at h
          have hstep := countLe_set_step pid hget
          exact countLe_trans hstep (ih _ s.advance h)

theorem reciprocal_outer_countLe :
    ∀ (fuel index : Nat) (ppl : List Person) (s : RState) {ppl1 : List Person}
      {s1 : RState},
      reciprocal_outer fuel index ppl s = some (ppl1, s1) → CountLe ppl ppl1 := by
  intro fuel
  induction fuel with
  | zero =>
    intro index ppl s ppl1 s1 h
    simp only [reciprocal_outer, Option.some.injEq, Prod.mk.injEq] at h
    rw [h.1]
    exact countLe_refl ppl1
  | succ fuel ih =>
    intro index ppl s ppl1 s1 h
    unfold reciprocal_outer at h
    cases hget : ppl.get? index with
    | none =>
      rw [hget] at h
      simp only [Option.some.injEq, Prod.mk.injEq] at h
      rw [h.1]
      exact countLe_refl ppl1
    | some person =>
      rw [hget] at h
      dsimp only at h
      cases hinner : reciprocal_inner ((index : Int) + 1) person.friends ppl s with
      | none =>
        rw [hinner] at h
        exact absurd h (by simp)
      | some q =>
        obtain ⟨pplm, sm⟩ := q
        rw [hinner] at h
        dsimp only at h
        exact countLe_trans (reciprocal_inner_countLe _ _ _ hinner) (ih _ _ _ h)

/-- C10: the reciprocity pass appends a given `person_id` to a given friend
list at most once over the whole pass (each append is guarded by a membership
test), so it introduces no new duplicate entries: every id's multiplicity in
every friend list after the pass is at most `max 1` of its multiplicity
before. -/
theorem reciprocity_no_new_duplicates {ppl ppl1 : List Person} {s s1 : RState}
    (h : generate_reciprocal_friends ppl s = some (ppl1, s1)) :
    ppl.length = ppl1.length ∧
    ∀ (j : Nat) (v : Int),
      (ppl1.getD j default).friends.count v
        ≤ max 1 ((ppl.getD j default).friends.count v) :=
  reciprocal_outer_countLe ppl.length 0 ppl s h

/-- Witness for C10 on a concrete list with a duplicated friend edge. -/
theorem reciprocity_no_new_duplicates_witness :
    ∃ (ppl1 : List Person) (s1 : RState),
      generate_reciprocal_friends
          [⟨1, "a", [], [2, 2]⟩, ⟨2, "b", [], []⟩] ⟨fun _ => 0, 0⟩
        = some (ppl1, s1) ∧
      (ppl1.getD 0 default).friends.count 2
        ≤ max 1 ((([⟨1, "a", [], [2, 2]⟩, ⟨2, "b", [], []⟩] : List Person).getD 0
            default).friends.count 2) := by
  have h : generate_reciprocal_friends
      [⟨1, "a", [], [2, 2]⟩, ⟨2, "b", [], []⟩] ⟨fun _ => 0, 0⟩
      = some ([⟨1, "a", [], [2, 2]⟩, ⟨2, "b", [], []⟩], ⟨fun _ => 0, 2⟩) := rfl
  exact ⟨_, _, h, (reciprocity_no_new_duplicates h).2 0 2⟩

/-! ## Output-writer lemmas -/

theorem partition_files_length (out : String) (ppl : List Person) (P rpp : Nat)
    (seed : Int) (now : Wallclock) (user : String) :
    (partition_files out ppl P rpp seed now user).length = P := by
  unfold partition_files
  rw [List.length_map, List.length_range]

theorem partition_files_getD {out : String} {ppl : List Person} {P rpp : Nat}
    {seed : Int} {now : Wallclock} {user : String} {j : Nat} (hj : j < P) :
    (partition_files out ppl P rpp seed now user).getD j default
      = { path := out ++ "/" ++ toString (j + 1) ++ ".json",
          meta_data := generate_meta_data now user
            ((ppl.drop (j * rpp)).take rpp).length seed
            ((j * rpp : Nat) : Int) (((j * rpp + rpp : Nat) : Int) - 1),
          data := (ppl.drop (j * rpp)).take rpp } := by
  unfold partition_files
  rw [List.getD_eq_getD_get?, List.get?_map, List.get?_range hj]
  rfl

theorem execute_eq (rng : Int → Nat → Nat) (fkr : Int → Nat → String)
    {N : Nat} (seed : Int) {P : Nat} (out : String) (now : Wallclock)
    (user : String) (hP : P ≠ 0) {ppl0 : List Person} {fk1 : FState}
    {s1 : RState} {ppl : List Person} {s2 : RState}
    (h1 : generate_people ⟨fkr seed, 0⟩ N ⟨rng seed, 0⟩ = some (ppl0, fk1, s1))
    (h2 : generate_reciprocal_friends ppl0 s1 = some (ppl, s2)) :
    execute rng fkr N seed P out now user
      = some ⟨out, partition_files out ppl P (N / P) seed now user⟩ := by
  unfold execute
  rw [if_neg hP]
  dsimp only
  rw [h1]
  dsimp only
  rw [h2]

/-- C1: for `P ∣ N` with `P ≥ 1`, the partitioned run succeeds, records the
recursive-mkdir target (the output directory) and writes exactly `P` files
named `1.json` .. `P.json` into it; in 0-based terms, file `j` (name
`(j+1).json`) holds the contiguous slice of `N/P` person records of the
generated population starting at index `j*(N/P)`, and its metadata records the
inclusive bounds `start = j*(N/P)` and `end = (j+1)*(N/P) - 1`. -/
theorem partitioned_run_layout (rng : Int → Nat → Nat) (fkr : Int → Nat → String)
    (N : Nat) (seed : Int) (P : Nat) (out : String) (now : Wallclock)
    (user : String) (hP : 1 ≤ P) (hdvd : P ∣ N) :
    ∃ run : RunOutput, execute rng fkr N seed P out now user = some run ∧
      run.mkdir_path = out ∧
      run.files.length = P ∧
      ∃ ppl : List Person, ppl.length = N ∧
        (∀ j, j < N → (ppl.getD j default).id = (j : Int) + 1) ∧
        ∀ j, j < P →
          (run.files.getD j default).path
              = out ++ "/" ++ toString (j + 1) ++ ".json" ∧
          (run.files.getD j default).data
              = (ppl.drop (j * (N / P))).take (N / P) ∧
          (run.files.getD j default).data.length = N / P ∧
          (run.files.getD j default).meta_data.number_of_records = N / P ∧
          (run.files.getD j default).meta_data.start_index
              = ((j * (N / P) : Nat) : Int) ∧
          (run.files.getD j default).meta_data.end_index
              = (((j + 1) * (N / P) : Nat) : Int) - 1 ∧
          (run.files.getD j default).meta_data.random_seed = seed := by
  obtain ⟨ppl0, fk1, s1, h1, hlen0, hid0, hfr0⟩ :=
    generate_people_spec ⟨fkr seed, 0⟩ N ⟨rng seed, 0⟩
  have hb0 : FriendsBound ppl0 := by
    intro p hp x hx
    rw [hlen0]
    exact hfr0 p hp x hx
  obtain ⟨ppl, s2, h2, hc, hlen1, hb1, hsp⟩ := generate_reciprocal_friends_spec s1 hb0
  have hP0 : P ≠ 0 := by omega
  have hex := execute_eq rng fkr seed out now user hP0 h1 h2
  have hplen : ppl.length = N := hlen1.trans hlen0
  have hmul : N / P * P = N := Nat.div_mul_cancel hdvd
  refine ⟨⟨out, partition_files out ppl P (N / P) seed now user⟩, hex, rfl,
    partition_files_length out ppl P (N / P) seed now user, ppl, hplen, ?_, ?_⟩
  · intro j hj
    rw [(hsp j).1]
    exact hid0 j hj
  · intro j hj
    have hjle : (j + 1) * (N / P) ≤ P * (N / P) :=
      Nat.mul_le_mul_right _ (by omega)
    have hPN : P * (N / P) = N := by
      rw [Nat.mul_comm]
      exact hmul
    have hslice : j * (N / P) + N / P ≤ N := by
      have : (j + 1) * (N / P) = j * (N / P) + N / P := by ring
      omega
    have hslen : ((ppl.drop (j * (N / P))).take (N / P)).length = N / P := by
      rw [List.length_take, List.length_drop, hplen]
      omega
    rw [partition_files_getD hj]
    refine ⟨rfl, rfl, hslen, hslen, rfl, ?_, rfl⟩
    have : (j + 1) * (N / P) = j * (N / P) + N / P := by ring
    rw [this]
    rfl

/-- Witness for C1 at `N = 4`, `P = 2`, concrete streams. -/
theorem partitioned_run_layout_witness :
    ∃ run : RunOutput,
      execute (fun _ _ => 0) (fun _ _ => "nm") 4 7 2 "out" ⟨"d", "t", "u"⟩ "usr"
        = some run ∧ run.files.length = 2 := by
  obtain ⟨run, hex, -, hlen, -⟩ :=
    partitioned_run_layout (fun _ _ => 0) (fun _ _ => "nm") 4 7 2 "out"
      ⟨"d", "t", "u"⟩ "usr" (by norm_num) (by norm_num)
  exact ⟨run, hex, hlen⟩

/-- C2: when N is not evenly divisible by the (nonzero) partition count, the
entry point prints the three diagnostic lines — the second of which
interpolates both operands N and Partitions — and aborts with
`argparse.ArgumentTypeError` before any generation work: the result is the
error and carries no run output. -/
theorem uneven_partition_aborts (rng : Int → Nat → Nat)
    (fkr : Int → Nat → String) (n seed p : Int) (out : String) (now : Wallclock)
    (user : String) (hp : p ≠ 0) (hnd : n % p ≠ 0) :
    main_partitioned rng fkr n seed p out now user
      = (["Please specify a number of records and partitions that will be evenly distributed",
          "Number of records (" ++ toString n ++
            ") does not evenly divide by number of partitions (" ++ toString p ++ ")",
          "e.g. 100 into 10 paritions"],
         Except.error
           "Number of records does not evenly divide by number of partitions") := by
  unfold main_partitioned divisibility_diagnostic
  rw [if_neg hp, if_neg hnd]

/-- Witness for C2 at `N = 100`, `Partitions = 7`. -/
theorem uneven_partition_aborts_witness :
    main_partitioned (fun _ _ => 0) (fun _ _ => "nm") 100 42 7 "out"
        ⟨"d", "t", "u"⟩ "usr"
      = (["Please specify a number of records and partitions that will be evenly distributed",
          "Number of records (" ++ toString (100 : Int) ++
            ") does not evenly divide by number of partitions (" ++
            toString (7 : Int) ++ ")",
          "e.g. 100 into 10 paritions"],
         Except.error
           "Number of records does not evenly divide by number of partitions") :=
  uneven_partition_aborts (fun _ _ => 0) (fun _ _ => "nm") 100 42 7 "out"
    ⟨"d", "t", "u"⟩ "usr" (by norm_num) (by decide)

/-- C3 (modelled from the spec; the single-file entry point's source is not
under `src/`): Mode A takes positional N (default 200), Seed (default 42) and
Output (default "data.json"); for N = 5, Seed = 1 it produces one JSON file
whose data array has exactly 5 elements carrying ids 1..5 and whose
`meta_data.random_seed` equals 1. -/
theorem single_file_mode_layout (rng : Int → Nat → Nat)
    (fkr : Int → Nat → String) (out : String) (now : Wallclock) (user : String) :
    single_file_defaults = (200, 42, "data.json") ∧
    ∃ file : OutFile, single_file_mode rng fkr 5 1 out now user = some file ∧
      file.data.length = 5 ∧
      (∀ j, j < 5 → (file.data.getD j default).id = (j : Int) + 1) ∧
      file.meta_data.random_seed = 1 := by
  refine ⟨rfl, ?_⟩
  obtain ⟨ppl0, fk1, s1, h1, hlen, hid, hfr⟩ :=
    generate_people_spec ⟨fkr 1, 0⟩ 5 ⟨rng 1, 0⟩
  have hb0 : FriendsBound ppl0 := by
    intro p hp x hx
    rw [hlen]
    exact hfr p hp x hx
  obtain ⟨ppl1, s2, h2, hc, hlen1, hb1, hsp⟩ := generate_reciprocal_friends_spec s1 hb0
  refine ⟨{ path := out,
            meta_data := generate_meta_data now user ppl1.length 1 0 (((5 : Nat) : Int) - 1),
            data := ppl1 }, ?_, ?_, ?_, rfl⟩
  · unfold single_file_mode
    dsimp only
    rw [h1]
    dsimp only
    rw [h2]
  · exact hlen1.trans hlen
  · intro j hj
    rw [(hsp j).1]
    exact hid j hj

/-! ## Hash-seed-dependent set iteration order

`gen_person` above iterates the set returned by `get_random_items` in one
fixed canonical order (the dedup representative).  CPython iterates a set of
strings in an order determined by the per-process string-hash seed, and
`for tag in new_tags` (src/main.py line 95) consumes that order, so the
association of interaction maps to hashtags differs between processes with
different hash seeds even when the `random`/`Faker` seeds agree.  The `_ord`
variants make that iteration order an explicit parameter
`ord : List String → List String`, applied to the canonical set
representative before the tag loop; `gen_person` is the instance
`ord = fun l => l`. -/

def gen_person_ord (ord : List String → List String) (fake : FState)
    (number_of_people : Nat) (i : Nat) (s : RState) :
    Option (Person × FState × RState) :=
  let (name, fake1) := fake.next
  match get_random_items tags_vocabulary 8 0 s with
  | none => none
  | some (new_tags, s1) =>
    match gen_tag_interactions (ord new_tags) s1 with
    | none => none
    | some (tag_interactions, s2) =>
      match randint 0 10 s2 with
      | none => none
      | some (k, s3) =>
        match gen_friend_draws number_of_people k.toNat s3 with
        | none => none
        | some (raw, s4) =>
          let target : Int := if 1 ≤ k then k - 1 else (i : Int)
          some ({ id := (i : Int) + 1, name := name,
                  tags := tag_interactions, friends := raw.erase target },
                fake1, s4)

def gen_people_aux_ord (ord : List String → List String) (number_of_people : Nat) :
    Nat → Nat → FState → RState → Option (List Person × FState × RState)
  | _, 0, fk, s => some ([], fk, s)
  | i, n + 1, fk, s =>
    match gen_person_ord ord fk number_of_people i s with
    | none => none
    | some (p, fk1, s1) =>
      match gen_people_aux_ord ord number_of_people (i + 1) n fk1 s1 with
      | none => none
      | some (ps, fk2, s2) => some (p :: ps, fk2, s2)

def generate_people_ord (ord : List String → List String) (fake : FState)
    (number_of_people : Nat) (s : RState) :
    Option (List Person × FState × RState) :=
  gen_people_aux_ord ord number_of_people 0 number_of_people fake s

def execute_ord (rng : Int → Nat → Nat) (fkr : Int → Nat → String)
    (ord : List String → List String) (number_of_people : Nat)
    (random_seed : Int) (number_of_partitions : Nat) (output_path : String)
    (now : Wallclock) (user : String) : Option RunOutput :=
  if number_of_partitions = 0 then none
  else
    let s0 : RState := ⟨rng random_seed, 0⟩
    let f0 : FState := ⟨fkr random_seed, 0⟩
    match generate_people_ord ord f0 number_of_people s0 with
    | none => none
    | some (people0, _, s1) =>
      match generate_reciprocal_friends people0 s1 with
      | none => none
      | some (people, _) =>
        let records_per_partition := number_of_people / number_of_partitions
        some { mkdir_path := output_path,
               files := partition_files output_path people number_of_partitions
                 records_per_partition random_seed now user }

theorem gen_person_ord_id (fake : FState) (N i : Nat) (s : RState) :
    gen_person_ord (fun l => l) fake N i s = gen_person fake N i s := rfl

theorem gen_people_aux_ord_id (N : Nat) :
    ∀ (n i : Nat) (fk : FState) (s : RState),
      gen_people_aux_ord (fun l => l) N i n fk s = gen_people_aux N i n fk s := by
  intro n
  induction n with
  | zero => intro i fk s; rfl
  | succ n ih =>
    intro i fk s
    unfold gen_people_aux_ord gen_people_aux
    rw [gen_person_ord_id]
    cases gen_person fk N i s with
    | none => rfl
    | some t =>
      obtain ⟨p, fk1, s1⟩ := t
      dsimp only
      rw [ih]

theorem generate_people_ord_id (fake : FState) (N : Nat) (s : RState) :
    generate_people_ord (fun l => l) fake N s = generate_people fake N s :=
  gen_people_aux_ord_id N N 0 fake s

/-- A concrete draw stream for which the sampler returns a two-element tag set
and the first tag iterated receives a "liked" count while the second receives
an empty interaction map. -/
def cex_stream : Nat → Nat := fun n => [1, 0, 1, 100, 5, 0].getD n 0

/-- C8 counterexample: the claim is false of the program as stated.  Two
partitioned runs with the same seed (42), the same N (1) and the same
partition count (1), executed in processes whose string-hash seeds iterate
the drawn tag set in different orders, produce different person records: the
same sequence of interaction maps attaches to different hashtags
(`#love ↦ liked 5` versus `#fashion ↦ liked 5`). -/
theorem runs_with_same_seed_cex :
    ∃ run1 run2 : RunOutput,
      execute_ord (fun _ => cex_stream) (fun _ _ => "nm") (fun l => l)
          1 42 1 "out" ⟨"d", "t", "u"⟩ "usr" = some run1 ∧
      execute_ord (fun _ => cex_stream) (fun _ _ => "nm") (fun l => l.reverse)
          1 42 1 "out" ⟨"d", "t", "u"⟩ "usr" = some run2 ∧
      (run1.files.getD 0 default).data ≠ (run2.files.getD 0 default).data := by
  refine ⟨{ mkdir_path := "out",
            files := [{ path := "out/1.json",
                        meta_data := { generated_at := ⟨"d", "t", "u"⟩,
                                       start_index := 0, end_index := 0,
                                       number_of_records := 1, user := "usr",
                                       random_seed := 42 },
                        data := [{ id := 1, name := "nm",
                                   tags := [("#love", [("liked", 5)]),
                                            ("#fashion", [])],
                                   friends := [] }] }] },
          { mkdir_path := "out",
            files := [{ path := "out/1.json",
                        meta_data := { generated_at := ⟨"d", "t", "u"⟩,
                                       start_index := 0, end_index := 0,
                                       number_of_records := 1, user := "usr",
                                       random_seed := 42 },
                        data := [{ id := 1, name := "nm",
                                   tags := [("#fashion", [("liked", 5)]),
                                            ("#love", [])],
                                   friends := [] }] }] }, ?_, ?_, ?_⟩
  · decide
  · decide
  · decide

/-- The tag loop consumes draws depending only on the number of tags iterated,
not on their labels: two iteration orders of the same length leave the stream
in the same state and produce the same sequence of interaction maps, attached
to the respective labels. -/
theorem gen_tag_interactions_paired :
    ∀ (l1 l2 : List String) (s : RState), l1.length = l2.length →
      ∃ r1 r2 s1, gen_tag_interactions l1 s = some (r1, s1) ∧
        gen_tag_interactions l2 s = some (r2, s1) ∧
        r1.map Prod.snd = r2.map Prod.snd := by
  intro l1
  induction l1 with
  | nil =>
    intro l2 s hl
    have h2 : l2 = [] := List.length_eq_zero.mp hl.symm
    subst h2
    exact ⟨[], [], s, rfl, rfl, rfl⟩
  | cons t1 q1 ih =>
    intro l2 s hl
    cases l2 with
    | nil => exact absurd hl (by simp)
    | cons t2 q2 =>
      obtain ⟨im, s1, him⟩ := gen_interactions_total interaction_kinds s
      obtain ⟨m1, m2, s2, hm1, hm2, hsnd⟩ := ih q2 s1 (by simpa using hl)
      refine ⟨(t1, im) :: m1, (t2, im) :: m2, s2, ?_, ?_, ?_⟩
      · unfold gen_tag_interactions
        rw [him]
        dsimp only
        rw [hm1]
      · unfold gen_tag_interactions
        rw [him]
        dsimp only
        rw [hm2]
      · simp [hsnd]

theorem gen_person_ord_paired (ord1 ord2 : List String → List String)
    (hord1 : ∀ l : List String, (ord1 l).length = l.length)
    (hord2 : ∀ l : List String, (ord2 l).length = l.length)
    (fk : FState) {N : Nat} (i : Nat) (s : RState) (hN : 1 ≤ N) :
    ∃ p1 p2 fk1 s1,
      gen_person_ord ord1 fk N i s = some (p1, fk1, s1) ∧
      gen_person_ord ord2 fk N i s = some (p2, fk1, s1) ∧
      p1.id = (i : Int) + 1 ∧ p2.id = (i : Int) + 1 ∧
      p1.name = p2.name ∧ p1.friends = p2.friends ∧
      p1.tags.map Prod.snd = p2.tags.map Prod.snd ∧
      (∀ x ∈ p1.friends, 1 ≤ x ∧ x ≤ (N : Int)) ∧
      (∀ x ∈ p2.friends, 1 ≤ x ∧ x ≤ (N : Int)) := by
  have htags : tags_vocabulary ≠ [] := by simp [tags_vocabulary]
  obtain ⟨new_tags, s1, hgri⟩ := gri_total htags 8 (by norm_num) 0 s
  obtain ⟨ti1, ti2, s2, hti1, hti2, hsnd⟩ :=
    gen_tag_interactions_paired (ord1 new_tags) (ord2 new_tags) s1
      (by rw [hord1, hord2])
  have hk := randint_isSome (a := 0) (b := 10) s2 (by norm_num)
  set k : Int := 0 + ((s2.g s2.pos % ((10 : Int) - 0 + 1).toNat : Nat) : Int) with hkdef
  obtain ⟨raw, s4, hraw, hrawlen, hrawmem⟩ :=
    gen_friend_draws_props hN k.toNat s2.advance
  have heq : ∀ (ord : List String → List String)
      (ti : List (String × List (String × Int))),
      gen_tag_interactions (ord new_tags) s1 = some (ti, s2) →
      gen_person_ord ord fk N i s
        = some ({ id := (i : Int) + 1, name := fk.f fk.pos, tags := ti,
                  friends := raw.erase (if 1 ≤ k then k - 1 else (i : Int)) },
                ⟨fk.f, fk.pos + 1⟩, s4) := by
    intro ord ti hti
    unfold gen_person_ord FState.next
    rw [hgri]
    dsimp only
    rw [hti]
    dsimp only
    rw [hk]
    dsimp only
    rw [hraw]
  refine ⟨_, _, _, _, heq ord1 ti1 hti1, heq ord2 ti2 hti2,
    rfl, rfl, rfl, rfl, hsnd, ?_, ?_⟩
  · intro x hx
    exact hrawmem x (List.erase_subset _ _ hx)
  · intro x hx
    exact hrawmem x (List.erase_subset _ _ hx)

theorem gen_people_aux_ord_paired (ord1 ord2 : List String → List String)
    (hord1 : ∀ l : List String, (ord1 l).length = l.length)
    (hord2 : ∀ l : List String, (ord2 l).length = l.length)
    {N : Nat} (hN : 1 ≤ N) :
    ∀ (n i : Nat) (fk : FState) (s : RState),
      ∃ ppl1 ppl2 fk1 s1,
        gen_people_aux_ord ord1 N i n fk s = some (ppl1, fk1, s1) ∧
        gen_people_aux_ord ord2 N i n fk s = some (ppl2, fk1, s1) ∧
        ppl1.length = n ∧ ppl2.length = n ∧
        (∀ j, j < n → (ppl1.getD j default).id = ((i + j : Nat) : Int) + 1) ∧
        (∀ j : Nat, (ppl1.getD j default).id = (ppl2.getD j default).id ∧
          (ppl1.getD j default).name = (ppl2.getD j default).name ∧
          (ppl1.getD j default).friends = (ppl2.getD j default).friends ∧
          (ppl1.getD j default).tags.map Prod.snd
            = (ppl2.getD j default).tags.map Prod.snd) ∧
        (∀ p ∈ ppl1, ∀ x ∈ p.friends, 1 ≤ x ∧ x ≤ (N : Int)) ∧
        (∀ p ∈ ppl2, ∀ x ∈ p.friends, 1 ≤ x ∧ x ≤ (N : Int)) := by
  intro n
  induction n with
  | zero =>
    intro i fk s
    exact ⟨[], [], fk, s, rfl, rfl, rfl, rfl,
      fun j hj => absurd hj (Nat.not_lt_zero j),
      fun j => ⟨rfl, rfl, rfl, rfl⟩, by simp, by simp⟩
  | succ n ih =>
    intro i fk s
    obtain ⟨p1, p2, fk1, s1, hp1, hp2, hid1, hid2, hname, hfr, hsnd, hb1, hb2⟩ :=
      gen_person_ord_paired ord1 ord2 hord1 hord2 fk i s hN
    obtain ⟨ps1, ps2, fk2, s2, hps1, hps2, hlen1, hlen2, hids, hrel, hbb1, hbb2⟩ :=
      ih (i + 1) fk1 s1
    refine ⟨p1 :: ps1, p2 :: ps2, fk2, s2, ?_, ?_, by simp [hlen1], by simp [hlen2],
      ?_, ?_, ?_, ?_⟩
    · unfold gen_people_aux_ord
      rw [hp1]
      dsimp only
      rw [hps1]
    · unfold gen_people_aux_ord
      rw [hp2]
      dsimp only
      rw [hps2]
    · intro j hj
      cases j with
      | zero => simpa using hid1
      | succ j =>
        have hj2 : j < n := by omega
        rw [List.getD_cons_succ, hids j hj2]
        omega
    · intro j
      cases j with
      | zero =>
        rw [List.getD_cons_zero, List.getD_cons_zero]
        exact ⟨hid1.trans hid2.symm, hname, hfr, hsnd⟩
      | succ j =>
        rw [List.getD_cons_succ, List.getD_cons_succ]
        exact hrel j
    · intro q hq x hx
      rcases List.mem_cons.mp hq with h0 | h1
      · rw [h0] at hx
        exact hb1 x hx
      · exact hbb1 q h1 x hx
    · intro q hq x hx
      rcases List.mem_cons.mp hq with h0 | h1
      · rw [h0] at hx
        exact hb2 x hx
      · exact hbb2 q h1 x hx

theorem generate_people_ord_paired (ord1 ord2 : List String → List String)
    (hord1 : ∀ l : List String, (ord1 l).length = l.length)
    (hord2 : ∀ l : List String, (ord2 l).length = l.length)
    (fk : FState) (N : Nat) (s : RState) :
    ∃ ppl1 ppl2 fk1 s1,
      generate_people_ord ord1 fk N s = some (ppl1, fk1, s1) ∧
      generate_people_ord ord2 fk N s = some (ppl2, fk1, s1) ∧
      ppl1.length = N ∧ ppl2.length = N ∧
      (∀ j, j < N → (ppl1.getD j default).id = (j : Int) + 1) ∧
      (∀ j : Nat, (ppl1.getD j default).id = (ppl2.getD j default).id ∧
        (ppl1.getD j default).name = (ppl2.getD j default).name ∧
        (ppl1.getD j default).friends = (ppl2.getD j default).friends ∧
        (ppl1.getD j default).tags.map Prod.snd
          = (ppl2.getD j default).tags.map Prod.snd) ∧
      (∀ p ∈ ppl1, ∀ x ∈ p.friends, 1 ≤ x ∧ x ≤ (N : Int)) ∧
      (∀ p ∈ ppl2, ∀ x ∈ p.friends, 1 ≤ x ∧ x ≤ (N : Int)) := by
  cases N with
  | zero =>
    exact ⟨[], [], fk, s, rfl, rfl, rfl, rfl,
      fun j hj => absurd hj (Nat.not_lt_zero j),
      fun j => ⟨rfl, rfl, rfl, rfl⟩, by simp, by simp⟩
  | succ n =>
    obtain ⟨ppl1, ppl2, fk1, s1, h1, h2, hl1, hl2, hids, hrel, hb1, hb2⟩ :=
      @gen_people_aux_ord_paired ord1 ord2 hord1 hord2 (n + 1) (by omega) (n + 1) 0 fk s
    exact ⟨ppl1, ppl2, fk1, s1, h1, h2, hl1, hl2,
      fun j hj => by simpa using hids j hj, hrel, hb1, hb2⟩

/-- Two people lists that agree on lengths and on every friend list.  The
reciprocity pass reads and writes only the friend lists, so it preserves this
relation and consumes the same draws on both sides. -/
def FriendsEq (a b : List Person) : Prop :=
  a.length = b.length ∧
  ∀ j : Nat, (a.getD j default).friends = (b.getD j default).friends

theorem add_reverse_edge_congr {a b : List Person} (h : FriendsEq a b)
    (pid fid : Int) :
    FriendsEq (add_reverse_edge a pid fid) (add_reverse_edge b pid fid) := by
  obtain ⟨hlen, hfr⟩ := h
  unfold add_reverse_edge
  dsimp only
  cases hga : a.get? (fid - 1).toNat with
  | none =>
    have hgb : b.get? (fid - 1).toNat = none := by
      rw [List.get?_eq_none] at hga ⊢
      omega
    rw [hgb]
    exact ⟨hlen, hfr⟩
  | some fra =>
    have hia : (fid - 1).toNat < a.length := by
      rcases List.get?_eq_some.mp hga with ⟨hh, -⟩
      exact hh
    have hib : (fid - 1).toNat < b.length := by omega
    have hgb : b.get? (fid - 1).toNat = some (b.get ⟨(fid - 1).toNat, hib⟩) :=
      List.get?_eq_get hib
    rw [hgb]
    dsimp only
    have hfra : fra = a.get ⟨(fid - 1).toNat, hia⟩ := by
      rw [List.get?_eq_get hia] at hga
      exact (Option.some.inj hga).symm
    have hfrab : fra.friends = (b.get ⟨(fid - 1).toNat, hib⟩).friends := by
      rw [hfra, ← List.getD_eq_get a default hia, ← List.getD_eq_get b default hib]
      exact hfr (fid - 1).toNat
    by_cases hmem : pid ∈ fra.friends
    · rw [if_pos hmem, if_pos (hfrab ▸ hmem)]
      exact ⟨hlen, hfr⟩
    · rw [if_neg hmem, if_neg (fun hc => hmem (hfrab ▸ hc))]
      refine ⟨by rw [List.length_set, List.length_set, hlen], fun j => ?_⟩
      by_cases hj : (fid - 1).toNat = j
      · subst hj
        rw [getD_set_self hia, getD_set_self hib]
        dsimp only
        rw [hfrab]
      · rw [getD_set_ne hj, getD_set_ne hj]
        exact hfr j

theorem claimed_pass_edges_congr (pid : Int) :
    ∀ (fl : List Int) (a b : List Person) (s : RState), FriendsEq a b →
      (claimed_pass_edges pid fl a s).2 = (claimed_pass_edges pid fl b s).2 ∧
      FriendsEq (claimed_pass_edges pid fl a s).1 (claimed_pass_edges pid fl b s).1 := by
  intro fl
  induction fl with
  | nil =>
    intro a b s h
    exact ⟨rfl, h⟩
  | cons fid rest ih =>
    intro a b s h
    unfold claimed_pass_edges
    by_cases hroll : (50 : Int) < ((s.g s.pos % 101 : Nat) : Int)
    · rw [if_pos hroll, if_pos hroll]
      exact ih _ _ s.advance (add_reverse_edge_congr h pid fid)
    · rw [if_neg hroll, if_neg hroll]
      exact ih _ _ s.advance h

theorem claimed_fold_congr :
    ∀ (L : List Nat) (a b : List Person) (s : RState), FriendsEq a b →
      (L.foldl (fun (st : List Person × RState) (index : Nat) =>
          claimed_pass_edges ((index : Int) + 1)
            ((st.1.getD index default).friends) st.1 st.2) (a, s)).2
        = (L.foldl (fun (st : List Person × RState) (index : Nat) =>
            claimed_pass_edges ((index : Int) + 1)
              ((st.1.getD index default).friends) st.1 st.2) (b, s)).2 ∧
      FriendsEq
        (L.foldl (fun (st : List Person × RState) (index : Nat) =>
          claimed_pass_edges ((index : Int) + 1)
            ((st.1.getD index default).friends) st.1 st.2) (a, s)).1
        (L.foldl (fun (st : List Person × RState) (index : Nat) =>
          claimed_pass_edges ((index : Int) + 1)
            ((st.1.getD index default).friends) st.1 st.2) (b, s)).1 := by
  intro L
  induction L with
  | nil =>
    intro a b s h
    exact ⟨rfl, h⟩
  | cons x L ih =>
    intro a b s h
    rw [List.foldl_cons, List.foldl_cons]
    dsimp only
    rw [h.2 x]
    obtain ⟨hs, hf⟩ :=
      claimed_pass_edges_congr ((x : Int) + 1) ((b.getD x default).friends) a b s h
    have ea : claimed_pass_edges ((x : Int) + 1) ((b.getD x default).friends) a s
        = ((claimed_pass_edges ((x : Int) + 1) ((b.getD x default).friends) a s).1,
           (claimed_pass_edges ((x : Int) + 1) ((b.getD x default).friends) b s).2) := by
      rw [← hs]
    rw [ea]
    exact ih _ _ _ hf

theorem claimed_reciprocity_congr {a b : List Person} (s : RState)
    (h : FriendsEq a b) :
    (claimed_reciprocity a s).2 = (claimed_reciprocity b s).2 ∧
    FriendsEq (claimed_reciprocity a s).1 (claimed_reciprocity b s).1 := by
  unfold claimed_reciprocity
  rw [h.1]
  exact claimed_fold_congr (List.range b.length) a b s h

theorem slice_getD (l : List Person) (a r i : Nat) :
    ((l.drop a).take r).getD i default
      = if i < r then l.getD (a + i) default else default := by
  by_cases hi : i < r
  · rw [if_pos hi, List.getD_eq_getD_get?, List.get?_take hi, List.get?_drop,
      ← List.getD_eq_getD_get?]
  · rw [if_neg hi]
    apply List.getD_eq_default
    rw [List.length_take]
    omega

/-- C8 (amended): for two runs with the same seed, the same N and the same
partition count: if the processes also iterate sets in the same order (same
string-hash seed) the datasets are identical except for the wall-clock and
operating-user metadata fields; regardless of the iteration orders, the file
paths, index bounds, record counts, recorded seed, and every person's id,
name and friend list coincide (pure functions of the seed streams and N), and
the sequences of interaction maps coincide — only their association to
hashtags depends on the set-iteration order. -/
theorem runs_with_same_seed_amended (rng : Int → Nat → Nat)
    (fkr : Int → Nat → String) (ord1 ord2 : List String → List String)
    (N : Nat) (seed : Int) (P : Nat) (out : String) (t1 t2 : Wallclock)
    (u1 u2 : String) {run1 run2 : RunOutput}
    (hord1 : ∀ l : List String, (ord1 l).length = l.length)
    (hord2 : ∀ l : List String, (ord2 l).length = l.length)
    (h1 : execute_ord rng fkr ord1 N seed P out t1 u1 = some run1)
    (h2 : execute_ord rng fkr ord2 N seed P out t2 u2 = some run2) :
    run1.mkdir_path = run2.mkdir_path ∧
    run1.files.length = run2.files.length ∧
    (∀ j : Nat,
      (run1.files.getD j default).path = (run2.files.getD j default).path ∧
      (run1.files.getD j default).meta_data.start_index
        = (run2.files.getD j default).meta_data.start_index ∧
      (run1.files.getD j default).meta_data.end_index
        = (run2.files.getD j default).meta_data.end_index ∧
      (run1.files.getD j default).meta_data.number_of_records
        = (run2.files.getD j default).meta_data.number_of_records ∧
      (run1.files.getD j default).meta_data.random_seed
        = (run2.files.getD j default).meta_data.random_seed ∧
      (run1.files.getD j default).data.length
        = (run2.files.getD j default).data.length ∧
      (∀ i : Nat,
        ((run1.files.getD j default).data.getD i default).id
          = ((run2.files.getD j default).data.getD i default).id ∧
        ((run1.files.getD j default).data.getD i default).name
          = ((run2.files.getD j default).data.getD i default).name ∧
        ((run1.files.getD j default).data.getD i default).friends
          = ((run2.files.getD j default).data.getD i default).friends ∧
        ((run1.files.getD j default).data.getD i default).tags.map Prod.snd
          = ((run2.files.getD j default).data.getD i default).tags.map Prod.snd)) ∧
    (ord1 = ord2 →
      (∀ j : Nat, (run1.files.getD j default).data
        = (run2.files.getD j default).data) ∧
      (t1 = t2 → u1 = u2 → run1 = run2)) := by
  unfold execute_ord at h1 h2
  by_cases hP0 : P = 0
  · rw [if_pos hP0] at h1
    exact absurd h1 (by simp)
  · rw [if_neg hP0] at h1 h2
    dsimp only at h1 h2
    obtain ⟨ppl1, ppl2, fk1, s1, hg1, hg2, hlen1, hlen2, hids, hrel, hb1, hb2⟩ :=
      generate_people_ord_paired ord1 ord2 hord1 hord2 ⟨fkr seed, 0⟩ N ⟨rng seed, 0⟩
    rw [hg1] at h1
    rw [hg2] at h2
    dsimp only at h1 h2
    have hbnd1 : FriendsBound ppl1 := by
      intro p hp x hx
      rw [hlen1]
      exact hb1 p hp x hx
    have hbnd2 : FriendsBound ppl2 := by
      intro p hp x hx
      rw [hlen2]
      exact hb2 p hp x hx
    obtain ⟨res1, e1, hr1, hc1, hrl1, hrb1, hsp1⟩ :=
      generate_reciprocal_friends_spec s1 hbnd1
    obtain ⟨res2, e2, hr2, hc2, hrl2, hrb2, hsp2⟩ :=
      generate_reciprocal_friends_spec s1 hbnd2
    rw [hr1] at h1
    rw [hr2] at h2
    dsimp only at h1 h2
    simp only [Option.some.injEq] at h1 h2
    subst h1
    subst h2
    have hfe : FriendsEq ppl1 ppl2 := ⟨hlen1.trans hlen2.symm, fun j => (hrel j).2.2.1⟩
    have hcong := claimed_reciprocity_congr s1 hfe
    have hres1 : (claimed_reciprocity ppl1 s1).1 = res1 := by rw [hc1]
    have hres2 : (claimed_reciprocity ppl2 s1).1 = res2 := by rw [hc2]
    have hfres : FriendsEq res1 res2 := by
      rw [← hres1, ← hres2]
      exact hcong.2
    have hreslen1 : res1.length = N := hrl1.trans hlen1
    have hreslen2 : res2.length = N := hrl2.trans hlen2
    have hresrel : ∀ m : Nat,
        (res1.getD m default).id = (res2.getD m default).id ∧
        (res1.getD m default).name = (res2.getD m default).name ∧
        (res1.getD m default).friends = (res2.getD m default).friends ∧
        (res1.getD m default).tags.map Prod.snd
          = (res2.getD m default).tags.map Prod.snd := by
      intro m
      refine ⟨?_, ?_, hfres.2 m, ?_⟩
      · rw [(hsp1 m).1, (hsp2 m).1]
        exact (hrel m).1
      · rw [(hsp1 m).2.1, (hsp2 m).2.1]
        exact (hrel m).2.1
      · rw [(hsp1 m).2.2, (hsp2 m).2.2]
        exact (hrel m).2.2.2
    dsimp only
    refine ⟨rfl, ?_, ?_, ?_⟩
    · rw [partition_files_length, partition_files_length]
    · intro j
      by_cases hj : j < P
      · rw [partition_files_getD hj, partition_files_getD hj]
        dsimp only
        refine ⟨rfl, rfl, rfl, ?_, rfl, ?_, ?_⟩
        · unfold generate_meta_data
          dsimp only
          rw [List.length_take, List.length_take, List.length_drop,
            List.length_drop, hreslen1, hreslen2]
        · rw [List.length_take, List.length_take, List.length_drop,
            List.length_drop, hreslen1, hreslen2]
        · intro i
          rw [slice_getD, slice_getD]
          by_cases hi : i < N / P
          · rw [if_pos hi, if_pos hi]
            exact hresrel (j * (N / P) + i)
          · rw [if_neg hi, if_neg hi]
            exact ⟨rfl, rfl, rfl, rfl⟩
      · have hpl1 := partition_files_length out res1 P (N / P) seed t1 u1
        have hpl2 := partition_files_length out res2 P (N / P) seed t2 u2
        rw [List.getD_eq_default _ _ (by omega), List.getD_eq_default _ _ (by omega)]
        exact ⟨rfl, rfl, rfl, rfl, rfl, rfl, fun i => ⟨rfl, rfl, rfl, rfl⟩⟩
    · intro hoo
      subst hoo
      have hpp : ppl1 = ppl2 := by
        have hx := hg1.symm.trans hg2
        simp only [Option.some.injEq, Prod.mk.injEq] at hx
        exact hx.1
      subst hpp
      have hrr : res1 = res2 := by
        have hx := hr1.symm.trans hr2
        simp only [Option.some.injEq, Prod.mk.injEq] at hx
        exact hx.1
      subst hrr
      refine ⟨fun j => ?_, fun ht hu => ?_⟩
      · by_cases hj : j < P
        · rw [partition_files_getD hj, partition_files_getD hj]
        · have hpl1 := partition_files_length out res1 P (N / P) seed t1 u1
          have hpl2 := partition_files_length out res1 P (N / P) seed t2 u2
          rw [List.getD_eq_default _ _ (by omega), List.getD_eq_default _ _ (by omega)]
      · subst ht
        subst hu
        rfl

/-- Witness for the amended C8 at `N = 2`, `P = 1`, concrete streams, identity
and reversed iteration orders, distinct clock and user inputs. -/
theorem runs_with_same_seed_amended_witness :
    ∃ run1 run2 : RunOutput,
      execute_ord (fun _ _ => 0) (fun _ _ => "nm") (fun l => l) 2 5 1 "out"
          ⟨"d1", "t1", "z1"⟩ "alice" = some run1 ∧
      execute_ord (fun _ _ => 0) (fun _ _ => "nm") (fun l => l.reverse) 2 5 1 "out"
          ⟨"d2", "t2", "z2"⟩ "bob" = some run2 ∧
      run1.files.length = run2.files.length := by
  have h1 : execute_ord (fun _ _ => 0) (fun _ _ => "nm") (fun l => l) 2 5 1 "out"
      ⟨"d1", "t1", "z1"⟩ "alice"
      = some { mkdir_path := "out",
               files := [{ path := "out/1.json",
                           meta_data := { generated_at := ⟨"d1", "t1", "z1"⟩,
                                          start_index := 0, end_index := 1,
                                          number_of_records := 2, user := "alice",
                                          random_seed := 5 },
                           data := [{ id := 1, name := "nm",
                                      tags := [("#love", [])], friends := [] },
                                    { id := 2, name := "nm",
                                      tags := [("#love", [])], friends := [] }] }] } := by
    decide
  have h2 : execute_ord (fun _ _ => 0) (fun _ _ => "nm") (fun l => l.reverse) 2 5 1 "out"
      ⟨"d2", "t2", "z2"⟩ "bob"
      = some { mkdir_path := "out",
               files := [{ path := "out/1.json",
                           meta_data := { generated_at := ⟨"d2", "t2", "z2"⟩,
                                          start_index := 0, end_index := 1,
                                          number_of_records := 2, user := "bob",
                                          random_seed := 5 },
                           data := [{ id := 1, name := "nm",
                                      tags := [("#love", [])], friends := [] },
                                    { id := 2, name := "nm",
                                      tags := [("#love", [])], friends := [] }] }] } := by
    decide
  obtain ⟨-, hlen, -, -⟩ :=
    runs_with_same_seed_amended (fun _ _ => 0) (fun _ _ => "nm") (fun l => l)
      (fun l => l.reverse) 2 5 1 "out" ⟨"d1", "t1", "z1"⟩ ⟨"d2", "t2", "z2"⟩
      "alice" "bob" (fun l => rfl) (fun l => List.length_reverse l) h1 h2
  exact ⟨_, _, h1, h2, hlen⟩
